import Mathlib

/-!
A shallow embedding of the core of a sparse-matrix GraphBLAS engine
(SuiteSparse:GraphBLAS), covering the reduction-to-scalar orchestrator
`GB_reduce_to_scalar`, the element-wise orchestrator entry `GB_eWise`, the
masked Gustavson multiply-add macro skeleton, the dot-product kernel with a
complemented mask `GB_AxB_dot2_compmask`, and the `nzmax` accessor.

Values are drawn from an abstract type `V`; typecasting is modelled, as in the
source, by a cast-factory function passed in (the source uses function
pointers obtained from `GB_cast_factory`, keyed by type codes).  Collaborators
that are not part of the represented source are modelled from the spec and
say so in their doc comments.
-/

namespace GraphBLAS

/-- Status enumeration returned by every operation (GrB_Info; spec section 6). -/
inductive GrB_Info where
  | GrB_SUCCESS
  | GrB_NO_VALUE
  | GrB_OUT_OF_MEMORY
  | GrB_DOMAIN_MISMATCH
  | GrB_DIMENSION_MISMATCH
  | GrB_NULL_POINTER
  | GrB_INVALID_VALUE
  deriving DecidableEq

/-- Built-in type codes plus the user-defined code (spec section 6). -/
inductive GB_Type_code where
  | BOOL
  | INT8
  | UINT8
  | INT16
  | UINT16
  | INT32
  | UINT32
  | INT64
  | UINT64
  | FP32
  | FP64
  | UDT
  deriving DecidableEq

/-- A type handle: its code plus an identifier separating distinct user-defined
types (the source distinguishes them by comparing `GrB_Type` pointers). -/
structure GrB_Type where
  code : GB_Type_code
  uid : Nat
  deriving DecidableEq

/-- Modelled from the spec: `GB_Type_compatible` (its definition is not under
src/, only callers).  Two types are compatible when they are the same type or
both are built-in, since typecasting exists between all built-in types
(spec sections 4.2 and 6). -/
def GB_Type_compatible (a b : GrB_Type) : Bool :=
  a == b || (a.code != GB_Type_code.UDT && b.code != GB_Type_code.UDT)

/-- A binary operator z = f(x,y) together with its three types (GrB_BinaryOp). -/
structure GrB_BinaryOp (V : Type) where
  xtype : GrB_Type
  ytype : GrB_Type
  ztype : GrB_Type
  f : V → V → V

/-- A monoid: a binary operator whose three types agree (`op.ztype` is the
monoid's z type), an identity value, and an optional terminal (absorbing)
value (GrB_Monoid).  The algebraic laws are hypotheses of the theorems that
need them. -/
structure GrB_Monoid (V : Type) where
  op : GrB_BinaryOp V
  identity : V
  terminal : Option V

/-- A sparse matrix as seen by the kernels verified here: its type handle, the
CSC/CSR orientation flag, the hypersparse flag, the inner dimension `vlen` and
outer dimension `vdim`, and the stored values `Ax` in storage order (the
matrix is finalized: no pending tuples, no zombies). -/
structure GrB_Matrix (V : Type) where
  type : GrB_Type
  is_csc : Bool
  is_hyper : Bool
  vlen : Nat
  vdim : Nat
  Ax : List V
  deriving DecidableEq

/-- GB_NNZ: number of stored entries. -/
def GB_NNZ {V : Type} (A : GrB_Matrix V) : Nat := A.Ax.length

/-- GB_NROWS: `vlen` for a CSC matrix, `vdim` for CSR. -/
def GB_NROWS {V : Type} (A : GrB_Matrix V) : Nat := if A.is_csc then A.vlen else A.vdim

/-- GB_NCOLS: `vdim` for a CSC matrix, `vlen` for CSR. -/
def GB_NCOLS {V : Type} (A : GrB_Matrix V) : Nat := if A.is_csc then A.vdim else A.vlen

/-- Modelled from the spec: `GB_compatible` (its definition is not under src/,
only its call sites).  It checks the typecast chain of C = accum(C,T)
(spec 4.7: casts C.type ← accum.z_type, accum.x_type ← C.type,
accum.y_type ← T.type; with no accum, C.type ← T.type) and that the mask, if
present, can be consulted as boolean (spec: the mask is a boolean-typed
matrix), reporting DomainMismatch otherwise. -/
def GB_compatible {V : Type} (ctype : GrB_Type) (M : Option (GrB_Matrix V))
    (accum : Option (GrB_BinaryOp V)) (ttype : GrB_Type) : GrB_Info :=
  let opsOK :=
    match accum with
    | none => GB_Type_compatible ctype ttype
    | some acc =>
        GB_Type_compatible ctype acc.ztype && GB_Type_compatible acc.xtype ctype &&
          GB_Type_compatible acc.ytype ttype
  let maskOK :=
    match M with
    | none => true
    | some m => m.type.code != GB_Type_code.UDT
  if opsOK && maskOK then GrB_Info.GrB_SUCCESS else GrB_Info.GrB_DOMAIN_MISMATCH

/-- Modelled from the spec: `GB_BinaryOp_compatible` (its definition is not
under src/).  The inputs A and B must be typecastable to the operator's x and
y inputs (spec 4.4: typecasting, if needed, wraps each value move), reporting
DomainMismatch otherwise. -/
def GB_BinaryOp_compatible {V : Type} (op : GrB_BinaryOp V) (atype btype : GrB_Type) :
    GrB_Info :=
  if GB_Type_compatible atype op.xtype && GB_Type_compatible btype op.ytype
  then GrB_Info.GrB_SUCCESS else GrB_Info.GrB_DOMAIN_MISMATCH

/-- Ceiling division on Nat (0 when the divisor is 0). -/
def ceilDiv (a b : Nat) : Nat := (a + b - 1) / b

/-- Modelled from the spec: `GB_nthreads` (its definition is not under src/).
Spec section 5: nthreads = min(nthreads_max, ceil(nz / chunk)); the worker
count is at least one. -/
def GB_nthreads (work chunk nthreads_max : Nat) : Nat :=
  max 1 (min nthreads_max (ceilDiv work chunk))

/-- The CPU task count chosen by GB_reduce_to_scalar, lines 96-104 of
Source/GB_reduce_to_scalar.c: ntasks = 1 when nthreads is 1, else 64*nthreads,
then clamped into [1, anz]. -/
def GB_reduce_ntasks (anz chunk nthreads_max : Nat) : Nat :=
  let nthreads := GB_nthreads anz chunk nthreads_max
  let ntasks0 := if nthreads = 1 then 1 else 64 * nthreads
  let ntasks1 := min ntasks0 anz
  max ntasks1 1

/-- The spec's task-count formula, stated in the spec's own words (section 5):
ntasks = 1 if nthreads == 1, else min(nz, 64*nthreads), with
nthreads = min(nthreads_max, ceil(nz/chunk)) as computed by `GB_nthreads`. -/
def ntasks_spec (anz chunk nthreads_max : Nat) : Nat :=
  let nthreads := GB_nthreads anz chunk nthreads_max
  if nthreads = 1 then 1 else min anz (64 * nthreads)

/-- Sequential fold with terminal break: s is replaced by freduce(s, a) for
each element (macro GB_ADD_ARRAY_TO_SCALAR), and after each application the
running value is compared to the terminal, breaking on equality (macros
GB_BREAK_IF_TERMINAL / GB_PARALLEL_BREAK_IF_TERMINAL, lines 209-234 of
Source/GB_reduce_to_scalar.c; the comparison is memcmp, here equality). -/
def GB_foldBreak {V : Type} [DecidableEq V] (freduce : V → V → V)
    (terminal : Option V) : V → List V → V
  | s, [] => s
  | s, a :: rest =>
      let s1 := freduce s a
      if terminal = some s1 then s1 else GB_foldBreak freduce terminal s1 rest

/-- Modelled from the spec: one task of GB_reduce_to_scalar_template.c (the
template file is not under src/; its per-element macros are, at lines 187-277
of Source/GB_reduce_to_scalar.c).  The task's accumulator is declared as the
identity (GB_SCALAR_IDENTITY), overwritten by the first element of its slice
(GB_CAST_ARRAY_TO_SCALAR), then folded with the remaining elements with the
terminal check between elements; an empty slice leaves the identity. -/
def GB_reduce_task {V : Type} [DecidableEq V] (freduce : V → V → V)
    (terminal : Option V) (identity : V) : List V → V
  | [] => identity
  | a :: rest => GB_foldBreak freduce terminal a rest

/-- GB_PART: the start position of task `k`'s slice of an array of `anz`
entries split into `ntasks` contiguous slices. -/
def GB_PART (k anz ntasks : Nat) : Nat := k * anz / ntasks

/-- Modelled from the spec: the partition of the nonzero array into `ntasks`
contiguous slices (spec 4.5 step 1 and section 5). -/
def GB_slices {V : Type} (l : List V) (ntasks : Nat) : List (List V) :=
  (List.range ntasks).map (fun tid =>
    (l.drop (GB_PART tid l.length ntasks)).take
      (GB_PART (tid + 1) l.length ntasks - GB_PART tid l.length ntasks))

/-- Modelled from the spec: GB_reduce_to_scalar_template.c (not under src/;
spec 4.5 steps 1-3).  Each task reduces its slice to a private scalar W[tid];
the orchestrator then combines W[0..ntasks-1] sequentially into s, which
starts at the monoid identity (lines 121-123 of Source/GB_reduce_to_scalar.c),
breaking at the terminal. -/
def GB_reduce_to_scalar_template {V : Type} [DecidableEq V] (freduce : V → V → V)
    (terminal : Option V) (identity : V) (Ax : List V) (ntasks : Nat) : V :=
  GB_foldBreak freduce terminal identity
    ((GB_slices Ax ntasks).map (GB_reduce_task freduce terminal identity))

/-- Outcome of a specialized switch-factory worker for reduction
(GB_red_factory.c): either success with the computed scalar, or the
GrB_NO_VALUE signal (the combination was disabled at generation time).  The
dispatcher may also find no worker at all for the opcode/typecode pair, which
is the `none` case of the `Option` below. -/
inductive GB_red_outcome (V : Type) where
  | success (s : V)
  | noValue
  deriving DecidableEq

/-- The scalar s = reduce(A) computed by lines 117-278 of
Source/GB_reduce_to_scalar.c: the identity when the matrix is empty; the
specialized worker's value when the matrix type equals the monoid z type and
the switch factory succeeds; the generic worker without typecast when the
types match but the factory declines (GrB_NO_VALUE) or lacks the combination;
and the generic worker with a per-element typecast (cast_A_to_Z from
GB_cast_factory) when the types differ, in which case the factory is never
consulted. -/
def GB_reduce_s {V : Type} [DecidableEq V]
    (cast : GB_Type_code → GB_Type_code → V → V)
    (reduce : GrB_Monoid V) (A : GrB_Matrix V)
    (factory : Option (GB_red_outcome V)) (ntasks : Nat) : V :=
  let ztype := reduce.op.ztype
  if A.Ax.length = 0 then reduce.identity
  else if A.type = ztype then
    match factory with
    | some (GB_red_outcome.success v) => v
    | _ => GB_reduce_to_scalar_template reduce.op.f reduce.terminal reduce.identity A.Ax ntasks
  else
    GB_reduce_to_scalar_template reduce.op.f reduce.terminal reduce.identity
      (A.Ax.map (cast ztype.code A.type.code)) ntasks

/-- The epilogue of GB_reduce_to_scalar, lines 287-319 of
Source/GB_reduce_to_scalar.c: c = (ctype) s when no accumulator is given,
else c = accum(c, s) with the explicit casts C → x-in, Z → y-in and
z-out → C taken from GB_cast_factory. -/
def GB_accum_scalar {V : Type} (cast : GB_Type_code → GB_Type_code → V → V)
    (c : V) (ctype : GrB_Type) (accum : Option (GrB_BinaryOp V))
    (ztype : GrB_Type) (s : V) : V :=
  match accum with
  | none => cast ctype.code ztype.code s
  | some acc =>
      let xaccum := cast acc.xtype.code ctype.code c
      let yaccum := cast acc.ytype.code ztype.code s
      cast ctype.code acc.ztype.code (acc.f xaccum yaccum)

/-- GB_reduce_to_scalar (Source/GB_reduce_to_scalar.c): c = accum(c, s) with
s = reduce_to_scalar(A).  Domain checks come first (lines 50-62), before any
workspace or reduction work, returning with c untouched; then s is computed
and the accumulator epilogue is applied. -/
def GB_reduce_to_scalar {V : Type} [DecidableEq V]
    (cast : GB_Type_code → GB_Type_code → V → V)
    (c : V) (ctype : GrB_Type) (accum : Option (GrB_BinaryOp V))
    (reduce : GrB_Monoid V) (A : GrB_Matrix V)
    (chunk nthreads_max : Nat) (factory : Option (GB_red_outcome V)) :
    GrB_Info × V :=
  let ztype := reduce.op.ztype
  let compat := GB_compatible ctype (none : Option (GrB_Matrix V)) accum ztype
  if compat ≠ GrB_Info.GrB_SUCCESS then (compat, c)
  else if ¬ GB_Type_compatible A.type ztype then (GrB_Info.GrB_DOMAIN_MISMATCH, c)
  else
    let anz := GB_NNZ A
    let ntasks := GB_reduce_ntasks anz chunk nthreads_max
    let s := GB_reduce_s cast reduce A factory ntasks
    (GrB_Info.GrB_SUCCESS, GB_accum_scalar cast c ctype accum ztype s)

/-- GrB.entries: the number of stored entries, gbnvals(G). -/
def GrB_entries {V : Type} (G : GrB_Matrix V) : Nat := G.Ax.length

/-- nzmax (GraphBLAS/@GrB/nzmax.m): e = max(gbnvals(G), 1). -/
def nzmax {V : Type} (G : GrB_Matrix V) : Nat := max (GrB_entries G) 1

/-- The dimension test of GB_eWise, lines 89-107 of Source/GB_eWise.c: with
the transpose descriptors applied, A, B and C must agree in both dimensions;
true when they do not. -/
def GB_eWise_dim_mismatch {V : Type} (C A B : GrB_Matrix V)
    (A_transpose B_transpose : Bool) : Bool :=
  let anrows := if A_transpose then GB_NCOLS A else GB_NROWS A
  let ancols := if A_transpose then GB_NROWS A else GB_NCOLS A
  let bnrows := if B_transpose then GB_NCOLS B else GB_NROWS B
  let bncols := if B_transpose then GB_NROWS B else GB_NCOLS B
  decide (anrows ≠ bnrows ∨ ancols ≠ bncols ∨ GB_NROWS C ≠ anrows ∨
    GB_NCOLS C ≠ bncols)

/-- GB_eWise (Source/GB_eWise.c): the orchestrator entry for eWiseAdd (set
union) and eWiseMult (set intersection).  The checks of lines 60-107 are
embedded literally; everything after them (quick mask return, wait, format
conformation, GB_add / GB_emult, GB_accum_mask — lines 109-263, whose callees
are outside the represented source) is the parameter `rest`. -/
def GB_eWise {V : Type}
    (rest : GrB_Matrix V → Bool → Option (GrB_Matrix V) → Bool →
      Option (GrB_BinaryOp V) → GrB_BinaryOp V → GrB_Matrix V → Bool →
      GrB_Matrix V → Bool → Bool → GrB_Info × GrB_Matrix V)
    (C : GrB_Matrix V) (C_replace : Bool) (M : Option (GrB_Matrix V))
    (Mask_comp : Bool) (accum : Option (GrB_BinaryOp V)) (op : GrB_BinaryOp V)
    (A : GrB_Matrix V) (A_transpose : Bool) (B : GrB_Matrix V) (B_transpose : Bool)
    (eWiseAdd : Bool) : GrB_Info × GrB_Matrix V :=
  let T_type := op.ztype
  let compat1 := GB_compatible C.type M accum T_type
  if compat1 ≠ GrB_Info.GrB_SUCCESS then (compat1, C)
  else
    let compat2 := GB_BinaryOp_compatible op A.type B.type
    if compat2 ≠ GrB_Info.GrB_SUCCESS then (compat2, C)
    else if eWiseAdd && !(GB_Type_compatible C.type A.type) then
      (GrB_Info.GrB_DOMAIN_MISMATCH, C)
    else if eWiseAdd && !(GB_Type_compatible C.type B.type) then
      (GrB_Info.GrB_DOMAIN_MISMATCH, C)
    else if GB_eWise_dim_mismatch C A B A_transpose B_transpose
    then (GrB_Info.GrB_DIMENSION_MISMATCH, C)
    else rest C C_replace M Mask_comp accum op A A_transpose B B_transpose eWiseAdd

/-- The Sauna: a per-thread scratch with a dense value workspace `Sauna_Work`
and a companion mark array `Sauna_Mark` (hi-watermark discipline; spec
section 5).  Arrays are modelled as total functions on inner indices. -/
structure GB_Sauna (V : Type) where
  Sauna_Work : Nat → V
  Sauna_Mark : Nat → Nat

/-- GB_MULTADD_WITH_MASK (the generated GB_AxB worker files, e.g. lines
198-212 of the generated min_rdiv_int8 file): when the mark slot of i equals
the current hi-watermark, this is the first contribution for C(i,j) in this
output vector, so Sauna_Work[i] is set to mult(aik,bkj) directly and the mark
is raised to hiwater+1; otherwise C(i,j) was seen before and
GB_MULTADD_NOMASK updates Sauna_Work[i] = add(Sauna_Work[i], mult(aik,bkj)).
`fmult` is the semiring multiply applied to (aik, bkj), `fadd` the additive
monoid. -/
def GB_MULTADD_WITH_MASK {V : Type} (fmult fadd : V → V → V) (hiwater : Nat)
    (S : GB_Sauna V) (i : Nat) (aik bkj : V) : GB_Sauna V :=
  if S.Sauna_Mark i = hiwater then
    { Sauna_Work := Function.update S.Sauna_Work i (fmult aik bkj)
      Sauna_Mark := Function.update S.Sauna_Mark i (hiwater + 1) }
  else
    { Sauna_Work := Function.update S.Sauna_Work i (fadd (S.Sauna_Work i) (fmult aik bkj))
      Sauna_Mark := S.Sauna_Mark }

/-- Modelled from the spec: the mask scatter of the masked Gustavson kernel
(GB_AxB_Gustavson_mask_template.c is not under src/; spec 4.3).  Before the
numeric scatter of output vector j, the mask vector M(:,j) is checked once:
the mark slot of every admitted inner index is set to the current
hi-watermark.  `Mj` lists the admitted inner indices of M(:,j). -/
def GB_mask_scatter {V : Type} (hiwater : Nat) (Mj : List Nat) (S : GB_Sauna V) :
    GB_Sauna V :=
  Mj.foldl (fun S i => { S with Sauna_Mark := Function.update S.Sauna_Mark i hiwater }) S

/-- Modelled from the spec: the scatter loop of one output vector of the masked
Gustavson kernel (spec 4.3).  After the mask scatter, each contribution
(i, aik, bkj) — one per pair A(i,k), B(k,j) — is applied: positions whose mark
is below the hi-watermark were not admitted by the mask and are skipped;
admitted positions go through GB_MULTADD_WITH_MASK. -/
def GB_Gustavson_mask_vector {V : Type} (fmult fadd : V → V → V) (hiwater : Nat)
    (Mj : List Nat) (contribs : List (Nat × V × V)) (S0 : GB_Sauna V) : GB_Sauna V :=
  contribs.foldl
    (fun S c =>
      if hiwater ≤ S.Sauna_Mark c.1 then
        GB_MULTADD_WITH_MASK fmult fadd hiwater S c.1 c.2.1 c.2.2
      else S)
    (GB_mask_scatter hiwater Mj S0)

/-- The contributions of a scatter loop that target inner index i, in order. -/
def contribsAt {V : Type} (i : Nat) (contribs : List (Nat × V × V)) : List (V × V) :=
  (contribs.filter (fun c => c.1 = i)).map (fun c => c.2)

/-- Modelled from the spec: the gather phase of the masked Gustavson kernel
(spec 4.3) — a slot i is considered live iff its mark equals hiwater+1; live
slots are gathered into C(:,j), with no per-vector re-initialization of the
workspace. -/
def GB_Gustavson_gather {V : Type} (hiwater : Nat) (S : GB_Sauna V)
    (cands : List Nat) : List (Nat × V) :=
  (cands.filter (fun i => S.Sauna_Mark i = hiwater + 1)).map
    (fun i => (i, S.Sauna_Work i))

/-- The trace of the masked scatter at a single inner index: the (work, mark)
cell before a contribution (aik, bkj) maps to the cell after it, following
GB_MULTADD_WITH_MASK and the admit guard of the scatter loop. -/
def GB_cell_step {V : Type} (fmult fadd : V → V → V) (hiwater : Nat)
    (wm : V × Nat) (p : V × V) : V × Nat :=
  if hiwater ≤ wm.2 then
    if wm.2 = hiwater then (fmult p.1 p.2, hiwater + 1)
    else (fadd wm.1 (fmult p.1 p.2), wm.2)
  else wm

/-- Modelled from the spec: GB_BINARY_TRIM_SEARCH (the binary-search macros
are not under src/; spec 4.4 and the code comment of
Template/GB_AxB_dot2_compmask.c name the lookup a binary search).  The
classical loop: while pleft < pright, probe pmiddle = (pleft+pright)/2 and
keep the half that can contain i.  The loop is run on a fuel argument large
enough to cover the initial gap, so the definition stays structurally
recursive. -/
def GB_BINARY_TRIM_SEARCH (X : Int → Int) (i : Int) :
    Nat → Int → Int → Int × Int
  | 0, pleft, pright => (pleft, pright)
  | fuel + 1, pleft, pright =>
      if pleft < pright then
        let pmiddle := (pleft + pright) / 2
        if X pmiddle < i then GB_BINARY_TRIM_SEARCH X i fuel (pmiddle + 1) pright
        else GB_BINARY_TRIM_SEARCH X i fuel pleft pmiddle
      else (pleft, pright)

/-- Modelled from the spec: GB_BINARY_SEARCH — trim, then found iff the two
cursors met on a position holding i.  Returns (found, final pleft); the
caller reads the mask value at the final pleft. -/
def GB_BINARY_SEARCH (X : Int → Int) (i : Int) (pleft pright : Int) : Bool × Int :=
  let r := GB_BINARY_TRIM_SEARCH X i (pright - pleft).toNat pleft pright
  (decide (r.1 = r.2) && decide (X r.1 = i), r.1)

/-- The mask test of Template/GB_AxB_dot2_compmask.c lines 92-101: mij starts
false; the row index i is searched for in M's vector j (entries
Mi[pM..pM_end-1], values Mx); when found, mij is the mask value cast to
boolean (cast_M). -/
def GB_AxB_dot2_compmask_mij {V : Type} (cast_M : V → Bool) (Mi : Int → Int)
    (Mx : Int → V) (pM pM_end : Int) (i : Int) : Bool :=
  let r := GB_BINARY_SEARCH Mi i pM (pM_end - 1)
  if r.1 then cast_M (Mx r.2) else false

/-- Modelled from the spec: the two-pointer intersection of GB_AxB_dot_cij.c
(not under src/; spec 4.3, dot product).  Walks the sparse index lists of
A(:,i) and B(:,j), advancing the cursor with the smaller index and emitting
mult(a,b) on index ties, in order. -/
def GB_AxB_dot_list {V : Type} (fmult : V → V → V) :
    List (Int × V) → List (Int × V) → List V
  | [], _ => []
  | (ia, a) :: arest, bs =>
      match bs.dropWhile (fun q => q.1 < ia) with
      | [] => []
      | (ib, b) :: brest =>
          if ia = ib then fmult a b :: GB_AxB_dot_list fmult arest brest
          else GB_AxB_dot_list fmult arest ((ib, b) :: brest)

/-- Modelled from the spec: cij = add-reduce over k of mult(A(k,i), B(k,j))
(spec 4.3, dot product).  The first hit sets cij (GB_DOT_COPY), later hits
fold with the additive monoid (GB_DOT_ADD); with an empty intersection no
entry C(i,j) is produced. -/
def GB_AxB_dot_cij {V : Type} (fmult fadd : V → V → V)
    (Acol Bcol : List (Int × V)) : Option V :=
  match GB_AxB_dot_list fmult Acol Bcol with
  | [] => none
  | v :: vs => some (vs.foldl fadd v)

/-- One (i,j) pair of Template/GB_AxB_dot2_compmask.c (lines 87-107): compute
C(i,j) = A(:,i)'*B(:,j) iff the complemented mask admits it, that is iff mij
is false. -/
def GB_AxB_dot2_compmask_cij {V : Type} (fmult fadd : V → V → V)
    (cast_M : V → Bool) (Mi : Int → Int) (Mx : Int → V) (pM pM_end : Int)
    (i : Int) (Acol Bcol : List (Int × V)) : Option V :=
  if GB_AxB_dot2_compmask_mij cast_M Mi Mx pM pM_end i then none
  else GB_AxB_dot_cij fmult fadd Acol Bcol

/-- Modelled from the spec: a task that observes the shared early_exit flag
(GB_IF_NOT_EARLY_EXIT, lines 216-221 of Source/GB_reduce_to_scalar.c) skips
the whole of its slice, so it publishes its untouched accumulator, which is
the monoid identity. -/
def GB_reduce_task_skip {V : Type} [DecidableEq V] (freduce : V → V → V)
    (terminal : Option V) (identity : V) (slice : List V) (skip : Bool) : V :=
  if skip then identity else GB_reduce_task freduce terminal identity slice

/-- Modelled from the spec: the parallel reduction with the early-exit
protocol (spec 4.5 step 2).  Each task either reduces its slice (with the
terminal break) or, having observed early_exit, skips it; the task results
are then combined sequentially from the identity with the terminal break. -/
def GB_reduce_with_early_exit {V : Type} [DecidableEq V] (freduce : V → V → V)
    (terminal : Option V) (identity : V) (slices : List (List V))
    (skips : List Bool) : V :=
  GB_foldBreak freduce terminal identity
    (List.zipWith (GB_reduce_task_skip freduce terminal identity) slices skips)

/-! ## Fold lemmas for the reduction worker -/

/-- A value fixed by the operator absorbs any further foldl. -/
theorem foldl_fixed_point {V : Type} (op : V → V → V) (t : V)
    (h : ∀ x, op t x = t) : ∀ l : List V, l.foldl op t = t := by
  intro l
  induction l with
  | nil => rfl
  | cons a rest ih => rw [List.foldl_cons, h a]; exact ih

/-- Once started from the terminal, the breaking fold stays there. -/
theorem GB_foldBreak_from_terminal {V : Type} [DecidableEq V] (op : V → V → V)
    (t : V) (habs_l : ∀ x, op t x = t) :
    ∀ l : List V, GB_foldBreak op (some t) t l = t := by
  intro l
  cases l with
  | nil => rfl
  | cons a rest =>
      unfold GB_foldBreak
      rw [habs_l a]
      simp

/-- If the terminal occurs anywhere in the list, the breaking fold returns
the terminal, from any start value. -/
theorem GB_foldBreak_terminal_mem {V : Type} [DecidableEq V] (op : V → V → V)
    (t : V) (habs_r : ∀ x, op x t = t) :
    ∀ (l : List V) (s : V), t ∈ l → GB_foldBreak op (some t) s l = t := by
  intro l
  induction l with
  | nil => intro s h; exact absurd h (List.not_mem_nil t)
  | cons a rest ih =>
      intro s h
      unfold GB_foldBreak
      dsimp only
      by_cases he : some t = some (op s a)
      · rw [if_pos he]
        exact (Option.some.inj he).symm
      · rw [if_neg he]
        rcases List.mem_cons.mp h with ha | hrest
        · exact absurd (congrArg some (ha ▸ (habs_r s).symm)) he
        · exact ih (op s a) hrest

/-- A task whose slice contains the terminal publishes the terminal. -/
theorem GB_reduce_task_terminal_mem {V : Type} [DecidableEq V] (op : V → V → V)
    (t identity : V) (habs_l : ∀ x, op t x = t) (habs_r : ∀ x, op x t = t) :
    ∀ slice : List V, t ∈ slice →
      GB_reduce_task op (some t) identity slice = t := by
  intro slice h
  cases slice with
  | nil => exact absurd h (List.not_mem_nil t)
  | cons a rest =>
      unfold GB_reduce_task
      dsimp only
      rcases List.mem_cons.mp h with ha | hrest
      · rw [← ha]
        exact GB_foldBreak_from_terminal op t habs_l rest
      · exact GB_foldBreak_terminal_mem op t habs_r rest a hrest

/-- With an absorbing terminal (or no terminal at all), the breaking fold
agrees with the plain left fold. -/
theorem GB_foldBreak_eq_foldl {V : Type} [DecidableEq V] (op : V → V → V)
    (terminal : Option V) (habs : ∀ t, terminal = some t → ∀ x, op t x = t) :
    ∀ (l : List V) (s : V), GB_foldBreak op terminal s l = l.foldl op s := by
  intro l
  induction l with
  | nil => intro s; rfl
  | cons a rest ih =>
      intro s
      unfold GB_foldBreak
      dsimp only
      by_cases he : terminal = some (op s a)
      · rw [if_pos he, List.foldl_cons,
          foldl_fixed_point op (op s a) (habs (op s a) he) rest]
      · rw [if_neg he, List.foldl_cons]
        exact ih (op s a)

/-- Associativity lets an outer operand slide out of a left fold. -/
theorem foldl_op_assoc {V : Type} (op : V → V → V)
    (hassoc : ∀ a b c, op (op a b) c = op a (op b c)) :
    ∀ (l : List V) (a b : V), l.foldl op (op a b) = op a (l.foldl op b) := by
  intro l
  induction l with
  | nil => intro a b; rfl
  | cons c rest ih =>
      intro a b
      rw [List.foldl_cons, List.foldl_cons, hassoc a b c]
      exact ih a (op b c)

/-- Folding the per-task results equals folding the concatenation of the
slices, given associativity, a right identity, and absorbing terminals. -/
theorem foldl_tasks_eq_foldl_flatten {V : Type} [DecidableEq V] (op : V → V → V)
    (terminal : Option V) (identity : V)
    (hassoc : ∀ a b c, op (op a b) c = op a (op b c))
    (hid_r : ∀ x, op x identity = x)
    (habs : ∀ t, terminal = some t → ∀ x, op t x = t) :
    ∀ (slices : List (List V)) (acc : V),
      (slices.map (GB_reduce_task op terminal identity)).foldl op acc =
        slices.flatten.foldl op acc := by
  intro slices
  induction slices with
  | nil => intro acc; rfl
  | cons sl rest ih =>
      intro acc
      rw [List.map_cons, List.foldl_cons, List.flatten_cons, List.foldl_append]
      have hsl : op acc (GB_reduce_task op terminal identity sl) =
          sl.foldl op acc := by
        cases sl with
        | nil => exact hid_r acc
        | cons a r =>
            unfold GB_reduce_task
            dsimp only
            rw [GB_foldBreak_eq_foldl op terminal habs r a, List.foldl_cons,
              ← foldl_op_assoc op hassoc r acc a]
      rw [hsl]
      exact ih (sl.foldl op acc)

/-- The concatenation of the segments of a monotone boundary function
recovers a prefix of the list. -/
theorem flatten_segments {V : Type} (l : List V) (f : Nat → Nat)
    (hmono : ∀ k, f k ≤ f (k + 1)) (h0 : f 0 = 0) :
    ∀ n : Nat, f n ≤ l.length →
      ((List.range n).map (fun k => (l.drop (f k)).take (f (k + 1) - f k))).flatten
        = l.take (f n) := by
  intro n
  induction n with
  | zero => intro _; rw [h0]; rfl
  | succ n ih =>
      intro hlen
      rw [List.range_succ, List.map_append, List.flatten_append,
        ih (le_trans (hmono n) hlen)]
      have hadd : f n + (f (n + 1) - f n) = f (n + 1) :=
        Nat.add_sub_cancel' (hmono n)
      rw [List.map_singleton, List.flatten_cons, List.flatten_nil,
        List.append_nil, ← List.take_add, hadd]

/-- The slices of the reduce partition concatenate back to the whole array. -/
theorem GB_slices_flatten {V : Type} (l : List V) (ntasks : Nat)
    (hn : 1 ≤ ntasks) : (GB_slices l ntasks).flatten = l := by
  have hmono : ∀ k, GB_PART k l.length ntasks ≤ GB_PART (k + 1) l.length ntasks := by
    intro k
    exact Nat.div_le_div_right (Nat.mul_le_mul_right l.length (Nat.le_succ k))
  have hlast : GB_PART ntasks l.length ntasks = l.length := by
    unfold GB_PART
    exact Nat.mul_div_cancel_left l.length hn
  have h2 : (GB_slices l ntasks).flatten = l.take (GB_PART ntasks l.length ntasks) := by
    unfold GB_slices
    exact flatten_segments l (fun k => GB_PART k l.length ntasks) hmono
      (by unfold GB_PART; simp) ntasks (le_of_eq hlast)
  rw [h2, hlast, List.take_length]

/-- The reduce template equals the plain fold of all values from the
identity, under associativity, identity on both sides, and absorption of any
terminal. -/
theorem GB_reduce_template_eq_foldl {V : Type} [DecidableEq V] (op : V → V → V)
    (terminal : Option V) (identity : V)
    (hassoc : ∀ a b c, op (op a b) c = op a (op b c))
    (hid_r : ∀ x, op x identity = x)
    (habs : ∀ t, terminal = some t → ∀ x, op t x = t)
    (Ax : List V) (ntasks : Nat) (hn : 1 ≤ ntasks) :
    GB_reduce_to_scalar_template op terminal identity Ax ntasks =
      Ax.foldl op identity := by
  unfold GB_reduce_to_scalar_template
  rw [GB_foldBreak_eq_foldl op terminal habs, foldl_tasks_eq_foldl_flatten op
    terminal identity hassoc hid_r habs, GB_slices_flatten Ax ntasks hn]

/-! ## Lemmas for the masked Gustavson scatter -/

/-- The scatter fold looks at each inner index independently: the final
(work, mark) cell at index i is the cell fold of the contributions that
target i. -/
theorem GB_Gustavson_cell {V : Type} (fmult fadd : V → V → V) (hiwater : Nat)
    (contribs : List (Nat × V × V)) :
    ∀ (S : GB_Sauna V) (i : Nat),
      ((contribs.foldl (fun S c =>
          if hiwater ≤ S.Sauna_Mark c.1 then
            GB_MULTADD_WITH_MASK fmult fadd hiwater S c.1 c.2.1 c.2.2
          else S) S).Sauna_Work i,
        (contribs.foldl (fun S c =>
          if hiwater ≤ S.Sauna_Mark c.1 then
            GB_MULTADD_WITH_MASK fmult fadd hiwater S c.1 c.2.1 c.2.2
          else S) S).Sauna_Mark i) =
      (contribsAt i contribs).foldl (GB_cell_step fmult fadd hiwater)
        (S.Sauna_Work i, S.Sauna_Mark i) := by
  induction contribs with
  | nil => intro S i; rfl
  | cons c rest ih =>
      intro S i
      rw [List.foldl_cons]
      by_cases hc : c.1 = i
      · have hcat : contribsAt i (c :: rest) = c.2 :: contribsAt i rest := by
          unfold contribsAt
          rw [List.filter_cons, if_pos (by simpa using hc), List.map_cons]
        rw [hcat, List.foldl_cons, ih]
        subst hc
        have hstep :
            (((if hiwater ≤ S.Sauna_Mark c.1 then
                GB_MULTADD_WITH_MASK fmult fadd hiwater S c.1 c.2.1 c.2.2
              else S)).Sauna_Work c.1,
             ((if hiwater ≤ S.Sauna_Mark c.1 then
                GB_MULTADD_WITH_MASK fmult fadd hiwater S c.1 c.2.1 c.2.2
              else S)).Sauna_Mark c.1) =
            GB_cell_step fmult fadd hiwater
              (S.Sauna_Work c.1, S.Sauna_Mark c.1) c.2 := by
          unfold GB_cell_step GB_MULTADD_WITH_MASK
          by_cases h1 : hiwater ≤ S.Sauna_Mark c.1
          · rw [if_pos h1, if_pos h1]
            by_cases h2 : S.Sauna_Mark c.1 = hiwater
            · rw [if_pos h2, if_pos h2]
              simp [Function.update_same]
            · rw [if_neg h2, if_neg h2]
              simp [Function.update_same]
          · rw [if_neg h1, if_neg h1]
        rw [hstep]
      · have hcat : contribsAt i (c :: rest) = contribsAt i rest := by
          unfold contribsAt
          rw [List.filter_cons, if_neg (by simpa using hc)]
        have hframe :
            (((if hiwater ≤ S.Sauna_Mark c.1 then
                GB_MULTADD_WITH_MASK fmult fadd hiwater S c.1 c.2.1 c.2.2
              else S)).Sauna_Work i,
             ((if hiwater ≤ S.Sauna_Mark c.1 then
                GB_MULTADD_WITH_MASK fmult fadd hiwater S c.1 c.2.1 c.2.2
              else S)).Sauna_Mark i) = (S.Sauna_Work i, S.Sauna_Mark i) := by
          unfold GB_MULTADD_WITH_MASK
          have hne : i ≠ c.1 := fun h => hc h.symm
          by_cases h1 : hiwater ≤ S.Sauna_Mark c.1
          · rw [if_pos h1]
            by_cases h2 : S.Sauna_Mark c.1 = hiwater
            · rw [if_pos h2]
              simp [Function.update_noteq hne]
            · rw [if_neg h2]
              simp [Function.update_noteq hne]
          · rw [if_neg h1]
        rw [hcat, ih, hframe]

/-- A cell whose mark is below the hi-watermark is never touched. -/
theorem GB_cell_fold_low {V : Type} (fmult fadd : V → V → V) (hiwater : Nat)
    (w : V) (m : Nat) (hm : m < hiwater) :
    ∀ ps : List (V × V),
      ps.foldl (GB_cell_step fmult fadd hiwater) (w, m) = (w, m) := by
  intro ps
  induction ps with
  | nil => rfl
  | cons p rest ih =>
      rw [List.foldl_cons]
      unfold GB_cell_step
      rw [if_neg (by omega)]
      exact ih

/-- A cell already at hiwater+1 accumulates every further contribution with
the additive monoid. -/
theorem GB_cell_fold_hi {V : Type} (fmult fadd : V → V → V) (hiwater : Nat) :
    ∀ (ps : List (V × V)) (w : V),
      ps.foldl (GB_cell_step fmult fadd hiwater) (w, hiwater + 1) =
        (ps.foldl (fun acc q => fadd acc (fmult q.1 q.2)) w, hiwater + 1) := by
  intro ps
  induction ps with
  | nil => intro w; rfl
  | cons p rest ih =>
      intro w
      rw [List.foldl_cons, List.foldl_cons]
      unfold GB_cell_step
      rw [if_pos (by omega), if_neg (by omega)]
      exact ih (fadd w (fmult p.1 p.2))

/-- A cell at the hi-watermark takes its first contribution by direct
assignment of the product, raises its mark, and then accumulates. -/
theorem GB_cell_fold_first {V : Type} (fmult fadd : V → V → V) (hiwater : Nat)
    (w : V) (p : V × V) (ps : List (V × V)) :
    (p :: ps).foldl (GB_cell_step fmult fadd hiwater) (w, hiwater) =
      (ps.foldl (fun acc q => fadd acc (fmult q.1 q.2)) (fmult p.1 p.2),
        hiwater + 1) := by
  rw [List.foldl_cons]
  unfold GB_cell_step
  rw [if_pos (le_refl hiwater), if_pos rfl]
  exact GB_cell_fold_hi fmult fadd hiwater ps (fmult p.1 p.2)

/-- The mask scatter raises the marks of the admitted indices to the
hi-watermark and touches nothing else. -/
theorem GB_mask_scatter_spec {V : Type} (hiwater : Nat) (Mj : List Nat) :
    ∀ (S : GB_Sauna V) (i : Nat),
      ((GB_mask_scatter hiwater Mj S).Sauna_Mark i =
        if i ∈ Mj then hiwater else S.Sauna_Mark i) ∧
      (GB_mask_scatter hiwater Mj S).Sauna_Work i = S.Sauna_Work i := by
  induction Mj with
  | nil =>
      intro S i
      refine ⟨?_, rfl⟩
      rw [if_neg (List.not_mem_nil i)]
      rfl
  | cons j rest ih =>
      intro S i
      unfold GB_mask_scatter at ih ⊢
      rw [List.foldl_cons]
      refine ⟨?_, (ih _ i).2⟩
      rw [(ih _ i).1]
      dsimp only
      by_cases hr : i ∈ rest
      · rw [if_pos hr, if_pos (List.mem_cons_of_mem j hr)]
      · rw [if_neg hr]
        by_cases hj : i = j
        · rw [if_pos (hj ▸ List.mem_cons_self i rest), Function.update_apply,
            if_pos hj]
        · rw [Function.update_apply, if_neg hj, if_neg (by
            intro hmem
            rcases List.mem_cons.mp hmem with h | h
            · exact hj h
            · exact hr h)]

/-! ## Lemmas for the binary search and the dot-product kernel -/

/-- Correctness of the trim loop on a window where X is nondecreasing: with
enough fuel the cursors meet between the original bounds, and if i occurs in
the window the meeting point holds it. -/
theorem GB_trim_search_spec (X : Int → Int) (i : Int) (lo hi : Int)
    (hmono : ∀ p q, lo ≤ p → p ≤ q → q ≤ hi → X p ≤ X q) :
    ∀ (fuel : Nat) (pl pr : Int), lo ≤ pl → pr ≤ hi → pl ≤ pr →
      (pr - pl).toNat ≤ fuel →
      (GB_BINARY_TRIM_SEARCH X i fuel pl pr).1 =
        (GB_BINARY_TRIM_SEARCH X i fuel pl pr).2 ∧
      pl ≤ (GB_BINARY_TRIM_SEARCH X i fuel pl pr).1 ∧
      (GB_BINARY_TRIM_SEARCH X i fuel pl pr).1 ≤ pr ∧
      ((∃ p, pl ≤ p ∧ p ≤ pr ∧ X p = i) →
        X (GB_BINARY_TRIM_SEARCH X i fuel pl pr).1 = i) := by
  intro fuel
  induction fuel with
  | zero =>
      intro pl pr hlo hhi hle hfuel
      have heq : pl = pr := by omega
      subst heq
      refine ⟨rfl, le_refl pl, le_refl pl, ?_⟩
      rintro ⟨p, hp1, hp2, hp3⟩
      have : p = pl := le_antisymm hp2 hp1
      exact this ▸ hp3
  | succ fuel ih =>
      intro pl pr hlo hhi hle hfuel
      unfold GB_BINARY_TRIM_SEARCH
      dsimp only
      by_cases hlt : pl < pr
      · rw [if_pos hlt]
        have hmid1 : pl ≤ (pl + pr) / 2 := by omega
        have hmid2 : (pl + pr) / 2 < pr := by omega
        by_cases hx : X ((pl + pr) / 2) < i
        · rw [if_pos hx]
          have h := ih ((pl + pr) / 2 + 1) pr (by omega) hhi (by omega) (by omega)
          refine ⟨h.1, by omega, h.2.2.1, ?_⟩
          rintro ⟨p, hp1, hp2, hp3⟩
          apply h.2.2.2
          refine ⟨p, ?_, hp2, hp3⟩
          by_contra hplt
          push_neg at hplt
          have hxp : X p ≤ X ((pl + pr) / 2) :=
            hmono p ((pl + pr) / 2) (by omega) (by omega) (by omega)
          omega
        · rw [if_neg hx]
          push_neg at hx
          have h := ih pl ((pl + pr) / 2) hlo (by omega) (by omega) (by omega)
          refine ⟨h.1, h.2.1, by omega, ?_⟩
          rintro ⟨p, hp1, hp2, hp3⟩
          apply h.2.2.2
          by_cases hpm : p ≤ (pl + pr) / 2
          · exact ⟨p, hp1, hpm, hp3⟩
          · push_neg at hpm
            have hle2 : X ((pl + pr) / 2) ≤ X p :=
              hmono ((pl + pr) / 2) p (by omega) (by omega) (by omega)
            exact ⟨(pl + pr) / 2, hmid1, le_refl _, by omega⟩
      · rw [if_neg hlt]
        have heq : pl = pr := by omega
        subst heq
        refine ⟨rfl, le_refl pl, le_refl pl, ?_⟩
        rintro ⟨p, hp1, hp2, hp3⟩
        have : p = pl := le_antisymm hp2 hp1
        exact this ▸ hp3

/-- GB_BINARY_SEARCH over the mask vector window [pM, pM_end): found is true
exactly when i occurs, and then the returned cursor points at an occurrence
inside the window. -/
theorem GB_BINARY_SEARCH_spec (X : Int → Int) (i : Int) (pM pM_end : Int)
    (hmono : ∀ p q, pM ≤ p → p ≤ q → q ≤ pM_end - 1 → X p ≤ X q) :
    ((GB_BINARY_SEARCH X i pM (pM_end - 1)).1 = true ↔
      ∃ p, pM ≤ p ∧ p < pM_end ∧ X p = i) ∧
    ((GB_BINARY_SEARCH X i pM (pM_end - 1)).1 = true →
      pM ≤ (GB_BINARY_SEARCH X i pM (pM_end - 1)).2 ∧
      (GB_BINARY_SEARCH X i pM (pM_end - 1)).2 < pM_end ∧
      X (GB_BINARY_SEARCH X i pM (pM_end - 1)).2 = i) := by
  by_cases hne : pM ≤ pM_end - 1
  · have h := GB_trim_search_spec X i pM (pM_end - 1) hmono
      (pM_end - 1 - pM).toNat pM (pM_end - 1) (le_refl pM) (le_refl _) hne
      (le_refl _)
    unfold GB_BINARY_SEARCH
    dsimp only
    constructor
    · constructor
      · intro hf
        rw [Bool.and_eq_true, decide_eq_true_iff, decide_eq_true_iff] at hf
        exact ⟨(GB_BINARY_TRIM_SEARCH X i (pM_end - 1 - pM).toNat pM
            (pM_end - 1)).1, h.2.1, by omega, hf.2⟩
      · rintro ⟨p, hp1, hp2, hp3⟩
        rw [Bool.and_eq_true, decide_eq_true_iff, decide_eq_true_iff]
        exact ⟨h.1, h.2.2.2 ⟨p, hp1, by omega, hp3⟩⟩
    · intro hf
      rw [Bool.and_eq_true, decide_eq_true_iff, decide_eq_true_iff] at hf
      exact ⟨h.2.1, by omega, hf.2⟩
  · push_neg at hne
    unfold GB_BINARY_SEARCH GB_BINARY_TRIM_SEARCH
    have hfz : (pM_end - 1 - pM).toNat = 0 := by omega
    rw [hfz]
    dsimp only
    constructor
    · constructor
      · intro hf
        rw [Bool.and_eq_true, decide_eq_true_iff] at hf
        omega
      · rintro ⟨p, hp1, hp2, hp3⟩
        omega
    · intro hf
      rw [Bool.and_eq_true, decide_eq_true_iff] at hf
      omega

/-- Looking a key up past entries with other keys skips them. -/
theorem lookup_append_of_ne {V : Type} (k : Int) :
    ∀ (pre rest : List (Int × V)), (∀ x ∈ pre, x.1 ≠ k) →
      List.lookup k (pre ++ rest) = List.lookup k rest := by
  intro pre
  induction pre with
  | nil => intro rest _; rfl
  | cons x xs ih =>
      intro rest h
      rw [List.cons_append]
      have hx : x.1 ≠ k := h x (List.mem_cons_self x xs)
      rw [show (x :: (xs ++ rest) : List (Int × V)) =
        ((x.1, x.2) :: (xs ++ rest)) from rfl, List.lookup_cons]
      have hbeq : (k == x.1) = false := beq_false_of_ne (fun he => hx he.symm)
      rw [hbeq]
      exact ih rest (fun y hy => h y (List.mem_cons_of_mem x hy))

/-- A key absent from every entry is not found. -/
theorem lookup_eq_none_of_ne {V : Type} (k : Int) :
    ∀ l : List (Int × V), (∀ x ∈ l, x.1 ≠ k) → List.lookup k l = none := by
  intro l h
  have := lookup_append_of_ne k l [] h
  rwa [List.append_nil] at this

/-- The head of a nonempty dropWhile fails the predicate. -/
theorem dropWhile_head_false {α : Type} (p : α → Bool) :
    ∀ (l : List α) (x : α) (xs : List α),
      l.dropWhile p = x :: xs → p x = false := by
  intro l
  induction l with
  | nil => intro x xs h; exact absurd h (by simp)
  | cons a rest ih =>
      intro x xs h
      rw [List.dropWhile_cons] at h
      by_cases hp : p a = true
      · rw [if_pos hp] at h
        exact ih x xs h
      · rw [if_neg hp] at h
        have : a = x := (List.cons.injEq a rest x xs ▸ h).1
        rw [← this]
        exact Bool.not_eq_true (p a) ▸ hp

/-- Two-pointer correctness: over strictly sorted index lists the dot kernel
emits exactly the products at the intersection of the index sets, in order
(the association-list lookup of each A index in B). -/
theorem GB_AxB_dot_list_spec {V : Type} (fmult : V → V → V) :
    ∀ (as bs : List (Int × V)),
      List.Pairwise (fun p q => p.1 < q.1) as →
      List.Pairwise (fun p q => p.1 < q.1) bs →
      GB_AxB_dot_list fmult as bs =
        as.filterMap (fun pa =>
          (List.lookup pa.1 bs).map (fun b => fmult pa.2 b)) := by
  intro as
  induction as with
  | nil => intro bs _ _; rfl
  | cons ha arest ih =>
      rcases ha with ⟨ia, a⟩
      intro bs hA hB
      have hAtail := (List.pairwise_cons.mp hA).2
      have hAhead := (List.pairwise_cons.mp hA).1
      have hsplit := List.takeWhile_append_dropWhile
        (fun q : Int × V => decide (q.1 < ia)) bs
      have hpre : ∀ x ∈ bs.takeWhile (fun q : Int × V => decide (q.1 < ia)),
          x.1 < ia := by
        intro x hx
        have := List.mem_takeWhile_imp hx
        exact of_decide_eq_true this
      unfold GB_AxB_dot_list
      cases hdw : bs.dropWhile (fun q : Int × V => decide (q.1 < ia)) with
      | nil =>
          dsimp only
          have hbs : bs = bs.takeWhile (fun q : Int × V => decide (q.1 < ia)) := by
            rw [hdw, List.append_nil] at hsplit
            exact hsplit.symm
          have hnone : ∀ k : Int, ¬ k < ia → List.lookup k bs = none := by
            intro k hk
            apply lookup_eq_none_of_ne
            intro x hx
            have : x.1 < ia := hpre x (hbs ▸ hx)
            omega
          symm
          rw [List.filterMap_eq_nil_iff]
          intro pa hpa
          rcases List.mem_cons.mp hpa with h1 | h1
          · rw [h1]
            dsimp only
            rw [hnone ia (by omega)]
            rfl
          · have hgt : ia < pa.1 := hAhead pa h1
            rw [hnone pa.1 (by omega)]
            rfl
      | cons hb brest =>
          rcases hb with ⟨ib, b⟩
          dsimp only
          have hfb : ¬ ib < ia := by
            have := dropWhile_head_false
              (fun q : Int × V => decide (q.1 < ia)) bs (ib, b) brest hdw
            simpa using this
          have hbs : bs = bs.takeWhile (fun q : Int × V => decide (q.1 < ia))
              ++ (ib, b) :: brest := by
            rw [← hdw, hsplit]
          have hBtail : List.Pairwise (fun p q : Int × V => p.1 < q.1)
              ((ib, b) :: brest) := by
            refine hB.sublist ?_
            rw [← hdw]
            exact List.dropWhile_sublist _
          have hBhead := (List.pairwise_cons.mp hBtail).1
          have hBrest := (List.pairwise_cons.mp hBtail).2
          have hlook : ∀ k : Int, ¬ k < ia →
              List.lookup k bs = List.lookup k ((ib, b) :: brest) := by
            intro k hk
            rw [hbs]
            apply lookup_append_of_ne
            intro x hx
            have := hpre x hx
            omega
          by_cases hia : ia = ib
          · rw [if_pos hia, List.filterMap_cons]
            have hheadlook : List.lookup ia bs = some b := by
              rw [hlook ia (by omega), hia, List.lookup_cons]
              simp
            rw [hheadlook]
            dsimp only [Option.map_some]
            rw [ih brest hAtail hBrest]
            congr 1
            apply List.filterMap_congr
            intro pa hpa
            have hgt : ia < pa.1 := hAhead pa hpa
            rw [hlook pa.1 (by omega), List.lookup_cons]
            have hbeq : (pa.1 == ib) = false :=
              beq_false_of_ne (by omega)
            rw [hbeq]
          · rw [if_neg hia, List.filterMap_cons]
            have hheadlook : List.lookup ia bs = none := by
              rw [hlook ia (by omega), List.lookup_cons]
              have hbeq : (ia == ib) = false := beq_false_of_ne hia
              rw [hbeq]
              apply lookup_eq_none_of_ne
              intro x hx
              have := hBhead x hx
              omega
            rw [hheadlook]
            dsimp only [Option.map_none]
            rw [ih ((ib, b) :: brest) hAtail hBtail]
            apply List.filterMap_congr
            intro pa hpa
            have hgt : ia < pa.1 := hAhead pa hpa
            rw [hlook pa.1 (by omega)]

/-! ## Claim theorems -/

/-- Claim C10: for every matrix G, the nzmax accessor returns
max(number of stored entries, 1) — and hence at least 1; in particular it
returns 1, never 0, for an empty matrix (one with no stored entries). -/
theorem nzmax_max_entries_one {V : Type} (G : GrB_Matrix V) :
    nzmax G = max (GrB_entries G) 1 ∧ 1 ≤ nzmax G ∧
      nzmax { G with Ax := ([] : List V) } = 1 := by
  refine ⟨rfl, ?_, rfl⟩
  unfold nzmax
  omega

/-- Claim C7: on the CPU path, the task count of GB_reduce_to_scalar is
exactly the spec's cost-model formula: ntasks = 1 when nthreads = 1 and
min(nz, 64*nthreads) otherwise, with nthreads = min(nthreads_max,
ceil(nz/chunk)) (clamped to at least one worker). -/
theorem GB_reduce_ntasks_eq_ntasks_spec (anz chunk nthreads_max : Nat) :
    GB_reduce_ntasks anz chunk nthreads_max = ntasks_spec anz chunk nthreads_max := by
  have hceil : anz = 0 → ceilDiv anz chunk = 0 := by
    intro h
    subst h
    unfold ceilDiv
    rcases Nat.eq_zero_or_pos chunk with hc | hc
    · subst hc; rfl
    · exact Nat.div_eq_of_lt (by omega)
  unfold GB_reduce_ntasks ntasks_spec GB_nthreads
  set cd := ceilDiv anz chunk with hcd
  dsimp only
  split <;> omega

/-- Claim C1: for every monoid and every empty matrix A (no stored entries),
GB_reduce_to_scalar returns the monoid identity cast to the output type; and
when an accumulator is supplied, c = accum(c, identity) is still applied (the
identity is not an implicit no-op), with the explicit casts C → x-in,
Z → y-in, z-out → C. -/
theorem GB_reduce_to_scalar_empty {V : Type} [DecidableEq V]
    (cast : GB_Type_code → GB_Type_code → V → V) (c : V) (ctype : GrB_Type)
    (accum : Option (GrB_BinaryOp V)) (reduce : GrB_Monoid V) (A : GrB_Matrix V)
    (chunk nthreads_max : Nat) (factory : Option (GB_red_outcome V))
    (hA : A.Ax = [])
    (hcompat : GB_compatible ctype (none : Option (GrB_Matrix V)) accum
      reduce.op.ztype = GrB_Info.GrB_SUCCESS)
    (htype : GB_Type_compatible A.type reduce.op.ztype = true) :
    GB_reduce_to_scalar cast c ctype accum reduce A chunk nthreads_max factory =
      (GrB_Info.GrB_SUCCESS,
        GB_accum_scalar cast c ctype accum reduce.op.ztype reduce.identity) := by
  unfold GB_reduce_to_scalar GB_reduce_s GB_NNZ
  rw [hA]
  simp [hcompat, htype]

/-- Witness for C1: a concrete empty Int matrix with a PLUS accumulator; the
output scalar is accum(c, identity) = 7 + 0 = 7. -/
theorem GB_reduce_to_scalar_empty_witness :
    GB_reduce_to_scalar (fun _ _ v => v) (7 : Int) ⟨GB_Type_code.INT64, 0⟩
      (some ⟨⟨GB_Type_code.INT64, 0⟩, ⟨GB_Type_code.INT64, 0⟩,
        ⟨GB_Type_code.INT64, 0⟩, fun x y => x + y⟩)
      ⟨⟨⟨GB_Type_code.INT64, 0⟩, ⟨GB_Type_code.INT64, 0⟩,
        ⟨GB_Type_code.INT64, 0⟩, fun x y => x + y⟩, 0, none⟩
      ⟨⟨GB_Type_code.INT64, 0⟩, true, false, 3, 3, []⟩
      4096 4 none = (GrB_Info.GrB_SUCCESS, 7) := by
  have h := GB_reduce_to_scalar_empty (V := Int) (fun _ _ v => v) 7
    ⟨GB_Type_code.INT64, 0⟩
    (some ⟨⟨GB_Type_code.INT64, 0⟩, ⟨GB_Type_code.INT64, 0⟩,
      ⟨GB_Type_code.INT64, 0⟩, fun x y => x + y⟩)
    ⟨⟨⟨GB_Type_code.INT64, 0⟩, ⟨GB_Type_code.INT64, 0⟩,
      ⟨GB_Type_code.INT64, 0⟩, fun x y => x + y⟩, 0, none⟩
    ⟨⟨GB_Type_code.INT64, 0⟩, true, false, 3, 3, []⟩
    4096 4 none rfl (by decide) (by decide)
  simpa using h

/-- Claim C2: for a monoid whose terminal t is absorbing, (i) the reduce
template applied to any value array containing t — t inserted at any
position — returns t, for any task count; (ii) reducing just the singleton
array containing t also returns t, so the two agree; and (iii) the parallel
early-exit protocol gives the same answer: any assignment of skipped tasks is
allowed provided every skip is justified by some non-skipped task whose slice
reduces to the terminal (the task that published early_exit), and the
combined result is still t. -/
theorem GB_reduce_terminal_short_circuit {V : Type} [DecidableEq V]
    (op : V → V → V) (identity t : V)
    (habs_l : ∀ x, op t x = t) (habs_r : ∀ x, op x t = t)
    (Ax : List V) (ntasks : Nat) (hn : 1 ≤ ntasks) (hmem : t ∈ Ax)
    (slices : List (List V)) (skips : List Bool)
    (hlen : skips.length = slices.length)
    (hmem2 : t ∈ slices.flatten)
    (hjust : ∀ k : Fin skips.length, skips.get k = true →
      ∃ k2 : Fin skips.length, skips.get k2 = false ∧
        GB_reduce_task op (some t) identity (slices.get (Fin.cast hlen k2)) = t) :
    GB_reduce_to_scalar_template op (some t) identity Ax ntasks = t ∧
    GB_reduce_to_scalar_template op (some t) identity [t] 1 = t ∧
    GB_reduce_with_early_exit op (some t) identity slices skips = t := by
  have hcombine : ∀ (sls : List (List V)), t ∈ sls.flatten →
      GB_foldBreak op (some t) identity
        (sls.map (GB_reduce_task op (some t) identity)) = t := by
    intro sls hm
    rcases List.mem_flatten.mp hm with ⟨sl, hsl, hts⟩
    have htask : GB_reduce_task op (some t) identity sl = t :=
      GB_reduce_task_terminal_mem op t identity habs_l habs_r sl hts
    have hmm : t ∈ sls.map (GB_reduce_task op (some t) identity) :=
      List.mem_map.mpr ⟨sl, hsl, htask⟩
    exact GB_foldBreak_terminal_mem op t habs_r _ identity hmm
  refine ⟨?_, ?_, ?_⟩
  · unfold GB_reduce_to_scalar_template
    exact hcombine _ ((GB_slices_flatten Ax ntasks hn).symm ▸ hmem)
  · unfold GB_reduce_to_scalar_template
    exact hcombine _
      ((GB_slices_flatten [t] 1 (le_refl 1)).symm ▸ List.mem_singleton.mpr rfl)
  · unfold GB_reduce_with_early_exit
    have hWlen : (List.zipWith (GB_reduce_task_skip op (some t) identity)
        slices skips).length = skips.length := by
      rw [List.length_zipWith]
      omega
    have hWget : ∀ (i : Nat) (h1 : i < slices.length) (h2 : i < skips.length)
        (h3 : i < (List.zipWith (GB_reduce_task_skip op (some t) identity)
          slices skips).length),
        (List.zipWith (GB_reduce_task_skip op (some t) identity)
            slices skips).get ⟨i, h3⟩ =
          GB_reduce_task_skip op (some t) identity
            (slices.get ⟨i, h1⟩) (skips.get ⟨i, h2⟩) := by
      intro i h1 h2 h3
      simp [List.get_eq_getElem, List.getElem_zipWith]
    have hmemW : t ∈ List.zipWith (GB_reduce_task_skip op (some t) identity)
        slices skips := by
      rcases List.mem_flatten.mp hmem2 with ⟨sl, hsl, hts⟩
      rcases List.mem_iff_get.mp hsl with ⟨k0, hk0⟩
      have hk0lt := k0.isLt
      have hk0s : k0.val < skips.length := by omega
      have hk0w : k0.val < (List.zipWith (GB_reduce_task_skip op (some t) identity) slices skips).length := by omega
      cases hsk : skips.get ⟨k0.val, hk0s⟩ with
      | false =>
          have hg : (List.zipWith (GB_reduce_task_skip op (some t) identity) slices skips).get ⟨k0.val, hk0w⟩ = t := by
            rw [hWget k0.val k0.isLt hk0s hk0w, hsk]
            unfold GB_reduce_task_skip
            rw [if_neg Bool.false_ne_true]
            have hsl' : slices.get ⟨k0.val, k0.isLt⟩ = sl := hk0
            rw [hsl']
            exact GB_reduce_task_terminal_mem op t identity habs_l habs_r sl hts
          have hm0 := List.get_mem (List.zipWith (GB_reduce_task_skip op (some t) identity) slices skips) k0.val hk0w
          rwa [hg] at hm0
      | true =>
          rcases hjust ⟨k0.val, hk0s⟩ hsk with ⟨k2, hk2f, hk2t⟩
          have hk2s : k2.val < slices.length := by omega
          have hk2w : k2.val < (List.zipWith (GB_reduce_task_skip op (some t) identity) slices skips).length := by omega
          have hg : (List.zipWith (GB_reduce_task_skip op (some t) identity) slices skips).get ⟨k2.val, hk2w⟩ = t := by
            rw [hWget k2.val hk2s k2.isLt hk2w]
            rw [show skips.get ⟨k2.val, k2.isLt⟩ = false from hk2f]
            unfold GB_reduce_task_skip
            rw [if_neg Bool.false_ne_true]
            exact hk2t
          have hm2 := List.get_mem (List.zipWith (GB_reduce_task_skip op (some t) identity) slices skips) k2.val hk2w
          rwa [hg] at hm2
    exact GB_foldBreak_terminal_mem op t habs_r (List.zipWith (GB_reduce_task_skip op (some t) identity) slices skips) identity hmemW

/-- Witness for C2: Int multiplication with identity 1 and absorbing terminal
0: reducing [2, 0, 3] in 2 tasks gives 0, reducing the singleton [0] gives 0,
and the early-exit run over slices [[2,3],[4,0,5],[6]] in which the third
task skipped (justified by the second task, which hit the terminal) also
gives 0. -/
theorem GB_reduce_terminal_short_circuit_witness :
    GB_reduce_to_scalar_template (fun x y => x * y) (some (0 : Int)) 1
      [2, 0, 3] 2 = 0 ∧
    GB_reduce_to_scalar_template (fun x y => x * y) (some (0 : Int)) 1 [0] 1 = 0 ∧
    GB_reduce_with_early_exit (fun x y => x * y) (some (0 : Int)) 1
      [[2, 3], [4, 0, 5], [6]] [false, false, true] = 0 :=
  GB_reduce_terminal_short_circuit (fun x y => x * y) 1 0
    (fun x => zero_mul x) (fun x => mul_zero x)
    [2, 0, 3] 2 (by decide) (by decide)
    [[2, 3], [4, 0, 5], [6]] [false, false, true] (by decide) (by decide)
    (by decide)

/-- Claim C8: the result of GB_reduce_to_scalar does not depend on whether A
is stored CSR or CSC, nor on whether it is hypersparse: flipping those flags,
together with any permutation of the stored values that such a change of
storage induces, leaves both the status and the output scalar unchanged, for
an associative and commutative monoid with identity whose terminal, if
present, is absorbing (the monoid laws the spec assumes throughout). -/
theorem GB_reduce_storage_equivalence {V : Type} [DecidableEq V]
    (cast : GB_Type_code → GB_Type_code → V → V) (c : V) (ctype : GrB_Type)
    (accum : Option (GrB_BinaryOp V)) (reduce : GrB_Monoid V) (A : GrB_Matrix V)
    (chunk nthreads_max : Nat) (factory : Option (GB_red_outcome V))
    (csc2 hyper2 : Bool) (Ax2 : List V)
    (hperm : List.Perm A.Ax Ax2)
    (hassoc : ∀ a b d, reduce.op.f (reduce.op.f a b) d =
      reduce.op.f a (reduce.op.f b d))
    (hcomm : ∀ a b, reduce.op.f a b = reduce.op.f b a)
    (hid : ∀ x, reduce.op.f reduce.identity x = x)
    (habs : ∀ t, reduce.terminal = some t → ∀ x, reduce.op.f t x = t) :
    GB_reduce_to_scalar cast c ctype accum reduce A chunk nthreads_max factory =
      GB_reduce_to_scalar cast c ctype accum reduce
        { A with is_csc := csc2, is_hyper := hyper2, Ax := Ax2 }
        chunk nthreads_max factory := by
  have hlen : A.Ax.length = Ax2.length := hperm.length_eq
  have hid_r : ∀ x, reduce.op.f x reduce.identity = x :=
    fun x => (hcomm x reduce.identity).trans (hid x)
  have hrc : ∀ (b a1 a2 : V), reduce.op.f (reduce.op.f b a1) a2 =
      reduce.op.f (reduce.op.f b a2) a1 := by
    intro b a1 a2
    rw [hassoc, hcomm a1 a2, ← hassoc]
  letI : RightCommutative reduce.op.f := ⟨hrc⟩
  have htemp : ∀ (l1 l2 : List V) (n : Nat), 1 ≤ n → List.Perm l1 l2 →
      GB_reduce_to_scalar_template reduce.op.f reduce.terminal reduce.identity
        l1 n =
      GB_reduce_to_scalar_template reduce.op.f reduce.terminal reduce.identity
        l2 n := by
    intro l1 l2 n hn hp
    rw [GB_reduce_template_eq_foldl reduce.op.f reduce.terminal reduce.identity
        hassoc hid_r habs l1 n hn,
      GB_reduce_template_eq_foldl reduce.op.f reduce.terminal reduce.identity
        hassoc hid_r habs l2 n hn]
    exact hp.foldl_eq reduce.identity
  have hnt : ∀ anz : Nat, 1 ≤ GB_reduce_ntasks anz chunk nthreads_max := by
    intro anz
    unfold GB_reduce_ntasks
    dsimp only
    omega
  have hs : GB_reduce_s cast reduce A factory
        (GB_reduce_ntasks A.Ax.length chunk nthreads_max) =
      GB_reduce_s cast reduce
        { A with is_csc := csc2, is_hyper := hyper2, Ax := Ax2 } factory
        (GB_reduce_ntasks A.Ax.length chunk nthreads_max) := by
    unfold GB_reduce_s
    dsimp only
    by_cases h0 : A.Ax.length = 0
    · have h02 : Ax2.length = 0 := by omega
      simp [h0, h02]
    · have h02 : ¬ Ax2.length = 0 := by omega
      rw [if_neg h0, if_neg h02]
      by_cases hty : A.type = reduce.op.ztype
      · rw [if_pos hty, if_pos hty]
        cases factory with
        | none => exact htemp A.Ax Ax2 _ (hnt A.Ax.length) hperm
        | some out =>
            cases out with
            | success v => rfl
            | noValue => exact htemp A.Ax Ax2 _ (hnt A.Ax.length) hperm
      · rw [if_neg hty, if_neg hty]
        exact htemp (A.Ax.map (cast reduce.op.ztype.code A.type.code))
          (Ax2.map (cast reduce.op.ztype.code A.type.code)) _
          (hnt A.Ax.length) (hperm.map (cast reduce.op.ztype.code A.type.code))
  unfold GB_reduce_to_scalar
  dsimp only
  unfold GB_NNZ
  dsimp only
  rw [← hlen, hs]

/-- Witness for C8: summing the Int values [1, 2, 3] of a CSC non-hypersparse
matrix and the reordered values [3, 1, 2] of the CSR hypersparse form of the
same matrix produces identical results. -/
theorem GB_reduce_storage_equivalence_witness :
    GB_reduce_to_scalar (fun _ _ v => v) (5 : Int) ⟨GB_Type_code.INT64, 0⟩ none
      ⟨⟨⟨GB_Type_code.INT64, 0⟩, ⟨GB_Type_code.INT64, 0⟩,
        ⟨GB_Type_code.INT64, 0⟩, fun x y => x + y⟩, 0, none⟩
      ⟨⟨GB_Type_code.INT64, 0⟩, true, false, 3, 1, [1, 2, 3]⟩ 4096 4 none =
    GB_reduce_to_scalar (fun _ _ v => v) (5 : Int) ⟨GB_Type_code.INT64, 0⟩ none
      ⟨⟨⟨GB_Type_code.INT64, 0⟩, ⟨GB_Type_code.INT64, 0⟩,
        ⟨GB_Type_code.INT64, 0⟩, fun x y => x + y⟩, 0, none⟩
      ⟨⟨GB_Type_code.INT64, 0⟩, false, true, 3, 1, [3, 1, 2]⟩ 4096 4 none :=
  GB_reduce_storage_equivalence (fun _ _ v => v) 5 ⟨GB_Type_code.INT64, 0⟩ none
    ⟨⟨⟨GB_Type_code.INT64, 0⟩, ⟨GB_Type_code.INT64, 0⟩,
      ⟨GB_Type_code.INT64, 0⟩, fun x y => x + y⟩, 0, none⟩
    ⟨⟨GB_Type_code.INT64, 0⟩, true, false, 3, 1, [1, 2, 3]⟩ 4096 4 none
    false true [3, 1, 2] (by decide)
    (fun a b d => add_assoc a b d) (fun a b => add_comm a b)
    (fun x => zero_add x) (fun t ht => Option.noConfusion ht)

/-- Claim C3: in the masked Gustavson scatter of one output vector, starting
from a workspace whose marks are all below the current hi-watermark (no
per-vector re-initialization), for every inner index i admitted by the mask:
the first contribution writes Sauna_Work[i] = mult(a,b) directly and raises
the mark to hiwater+1, and every later contribution for the same position
updates Sauna_Work[i] = add(Sauna_Work[i], mult(a,b)); a mark equals
hiwater+1 exactly for the admitted positions that received a contribution,
so all other positions — including the stale marks left by earlier vectors,
which are never rewritten — read as empty. -/
theorem GB_Gustavson_masked_scatter_spec {V : Type} (fmult fadd : V → V → V)
    (hiwater : Nat) (Mj : List Nat) (contribs : List (Nat × V × V))
    (S0 : GB_Sauna V) (hinit : ∀ j, S0.Sauna_Mark j < hiwater) (i : Nat) :
    (i ∈ Mj → ∀ p ps, contribsAt i contribs = p :: ps →
      (GB_Gustavson_mask_vector fmult fadd hiwater Mj contribs S0).Sauna_Work i =
        ps.foldl (fun acc q => fadd acc (fmult q.1 q.2)) (fmult p.1 p.2) ∧
      (GB_Gustavson_mask_vector fmult fadd hiwater Mj contribs S0).Sauna_Mark i =
        hiwater + 1) ∧
    ((GB_Gustavson_mask_vector fmult fadd hiwater Mj contribs S0).Sauna_Mark i =
        hiwater + 1 ↔ i ∈ Mj ∧ contribsAt i contribs ≠ []) ∧
    (i ∉ Mj →
      (GB_Gustavson_mask_vector fmult fadd hiwater Mj contribs S0).Sauna_Mark i =
        S0.Sauna_Mark i) ∧
    (i ∈ Mj → contribsAt i contribs = [] →
      (GB_Gustavson_mask_vector fmult fadd hiwater Mj contribs S0).Sauna_Mark i =
        hiwater) := by
  have hcell := GB_Gustavson_cell fmult fadd hiwater contribs
    (GB_mask_scatter hiwater Mj S0) i
  have hmark := (GB_mask_scatter_spec hiwater Mj S0 i).1
  have hwork := (GB_mask_scatter_spec hiwater Mj S0 i).2
  unfold GB_Gustavson_mask_vector
  rw [hmark, hwork] at hcell
  constructor
  · intro hm p ps hcs
    rw [if_pos hm] at hcell
    rw [hcs, GB_cell_fold_first] at hcell
    exact ⟨congrArg Prod.fst hcell, congrArg Prod.snd hcell⟩
  · constructor
    · constructor
      · intro hmk
        by_cases hm : i ∈ Mj
        · refine ⟨hm, ?_⟩
          intro hemp
          rw [if_pos hm, hemp, List.foldl_nil] at hcell
          have := congrArg Prod.snd hcell
          dsimp only at this
          rw [hmk] at this
          omega
        · rw [if_neg hm, GB_cell_fold_low fmult fadd hiwater _ _ (hinit i)]
            at hcell
          have := congrArg Prod.snd hcell
          dsimp only at this
          rw [hmk] at this
          have h2 := hinit i
          omega
      · rintro ⟨hm, hne⟩
        rw [if_pos hm] at hcell
        cases hcs : contribsAt i contribs with
        | nil => exact absurd hcs hne
        | cons p ps =>
            rw [hcs, GB_cell_fold_first] at hcell
            exact congrArg Prod.snd hcell
    · constructor
      · intro hm
        rw [if_neg hm, GB_cell_fold_low fmult fadd hiwater _ _ (hinit i)]
          at hcell
        exact congrArg Prod.snd hcell
      · intro hm hemp
        rw [if_pos hm, hemp, List.foldl_nil] at hcell
        exact congrArg Prod.snd hcell

/-- Witness for C3: hiwater 1, admitted indices [0, 2] and contributions
(0, 2, 3), (2, 1, 4), (0, 5, 7) over Int with mult = * and add = +.  Index 0
receives 2*3 = 6 directly, then 6 + 5*7 = 41, with mark raised to 2; index 1
is untouched and its mark stays 0. -/
theorem GB_Gustavson_masked_scatter_spec_witness :
    (GB_Gustavson_mask_vector (fun a b => a * b) (fun a b => a + b) 1 [0, 2]
      [(0, 2, 3), (2, 1, 4), (0, 5, 7)]
      ⟨fun _ => (0 : Int), fun _ => 0⟩).Sauna_Work 0 = 41 ∧
    (GB_Gustavson_mask_vector (fun a b => a * b) (fun a b => a + b) 1 [0, 2]
      [(0, 2, 3), (2, 1, 4), (0, 5, 7)]
      ⟨fun _ => (0 : Int), fun _ => 0⟩).Sauna_Mark 0 = 2 ∧
    (GB_Gustavson_mask_vector (fun a b => a * b) (fun a b => a + b) 1 [0, 2]
      [(0, 2, 3), (2, 1, 4), (0, 5, 7)]
      ⟨fun _ => (0 : Int), fun _ => 0⟩).Sauna_Mark 1 = 0 := by
  have h0 := GB_Gustavson_masked_scatter_spec (fun a b => a * b)
    (fun a b => a + b) 1 [0, 2] [(0, 2, 3), (2, 1, 4), (0, 5, 7)]
    ⟨fun _ => (0 : Int), fun _ => 0⟩ (fun _ => Nat.one_pos) 0
  have h1 := GB_Gustavson_masked_scatter_spec (fun a b => a * b)
    (fun a b => a + b) 1 [0, 2] [(0, 2, 3), (2, 1, 4), (0, 5, 7)]
    ⟨fun _ => (0 : Int), fun _ => 0⟩ (fun _ => Nat.one_pos) 1
  have hw := h0.1 (by decide) (2, 3) [(5, 7)] (by decide)
  refine ⟨hw.1.trans (by decide), hw.2, ?_⟩
  exact (h1.2.2.1 (by decide))

/-- Claim C4: in the dot-product kernel with a complemented mask
(C(:,j)<!M(:,j)> = A'*B(:,j)), for a pair (i,j) the admit bit mij — located
by binary search of i within M's vector j, entries Mi[pM..pM_end) strictly
increasing — is true exactly when M(i,j) is structurally present with a value
casting to boolean true; the entry C(i,j) is therefore computed iff M(i,j) is
structurally absent or casts to false, and its value is the add-reduce over k
of mult(A(k,i), B(k,j)) on the intersection of the two sorted index lists. -/
theorem GB_AxB_dot2_compmask_spec {V : Type} (fmult fadd : V → V → V)
    (cast_M : V → Bool) (Mi : Int → Int) (Mx : Int → V) (pM pM_end : Int)
    (i : Int) (Acol Bcol : List (Int × V))
    (hmono : ∀ p q, pM ≤ p → p < q → q < pM_end → Mi p < Mi q)
    (hA : List.Pairwise (fun p q : Int × V => p.1 < q.1) Acol)
    (hB : List.Pairwise (fun p q : Int × V => p.1 < q.1) Bcol) :
    (GB_AxB_dot2_compmask_mij cast_M Mi Mx pM pM_end i = true ↔
      ∃ p, pM ≤ p ∧ p < pM_end ∧ Mi p = i ∧ cast_M (Mx p) = true) ∧
    GB_AxB_dot2_compmask_cij fmult fadd cast_M Mi Mx pM pM_end i Acol Bcol =
      (if GB_AxB_dot2_compmask_mij cast_M Mi Mx pM pM_end i then none
       else
         match Acol.filterMap (fun pa =>
             (List.lookup pa.1 Bcol).map (fun b => fmult pa.2 b)) with
         | [] => none
         | v :: vs => some (vs.foldl fadd v)) := by
  have hmono' : ∀ p q, pM ≤ p → p ≤ q → q ≤ pM_end - 1 → Mi p ≤ Mi q := by
    intro p q h1 h2 h3
    rcases eq_or_lt_of_le h2 with he | hl
    · exact le_of_eq (congrArg Mi he)
    · exact le_of_lt (hmono p q h1 hl (by omega))
  have hsearch := GB_BINARY_SEARCH_spec Mi i pM pM_end hmono'
  constructor
  · unfold GB_AxB_dot2_compmask_mij
    dsimp only
    constructor
    · intro hmij
      by_cases hf : (GB_BINARY_SEARCH Mi i pM (pM_end - 1)).1 = true
      · rw [if_pos hf] at hmij
        rcases hsearch.2 hf with ⟨hb1, hb2, hb3⟩
        exact ⟨(GB_BINARY_SEARCH Mi i pM (pM_end - 1)).2, hb1, hb2, hb3, hmij⟩
      · rw [if_neg hf] at hmij
        exact absurd hmij (by simp)
    · rintro ⟨p, hp1, hp2, hp3, hp4⟩
      have hf : (GB_BINARY_SEARCH Mi i pM (pM_end - 1)).1 = true :=
        hsearch.1.mpr ⟨p, hp1, hp2, hp3⟩
      rw [if_pos hf]
      rcases hsearch.2 hf with ⟨hb1, hb2, hb3⟩
      have hup : (GB_BINARY_SEARCH Mi i pM (pM_end - 1)).2 = p := by
        by_contra hne
        rcases lt_or_gt_of_ne hne with hl | hl
        · have := hmono _ p hb1 hl hp2
          omega
        · have := hmono p _ hp1 hl hb2
          omega
      rw [hup]
      exact hp4
  · unfold GB_AxB_dot2_compmask_cij GB_AxB_dot_cij
    rw [GB_AxB_dot_list_spec fmult Acol Bcol hA hB]

/-- Witness for C4: the mask vector is the identity index list over window
[0, 2) with values Mx 0 = 1 and 0 elsewhere, cast to boolean as nonzero.
Row 0 is present with a true mask value, so mij is true there; for row 1 the
mask value casts to false, so C(1, j) is computed, and on columns
A = [(0,2),(5,3)], B = [(0,10),(5,4)] the dot product is 2*10 + 3*4 = 32. -/
theorem GB_AxB_dot2_compmask_spec_witness :
    GB_AxB_dot2_compmask_mij (fun v : Int => v != 0) (fun p => p)
      (fun p => if p = 0 then 1 else 0) 0 2 0 = true ∧
    GB_AxB_dot2_compmask_cij (fun a b => a * b) (fun a b => a + b)
      (fun v : Int => v != 0) (fun p => p) (fun p => if p = 0 then 1 else 0)
      0 2 1 [(0, 2), (5, 3)] [(0, 10), (5, 4)] = some 32 := by
  have h0 := GB_AxB_dot2_compmask_spec (fun a b : Int => a * b)
    (fun a b => a + b) (fun v : Int => v != 0) (fun p => p)
    (fun p => if p = 0 then 1 else 0) 0 2 0 [(0, 2), (5, 3)] [(0, 10), (5, 4)]
    (fun p q _ h2 _ => h2) (by decide) (by decide)
  have h1 := GB_AxB_dot2_compmask_spec (fun a b : Int => a * b)
    (fun a b => a + b) (fun v : Int => v != 0) (fun p => p)
    (fun p => if p = 0 then 1 else 0) 0 2 1 [(0, 2), (5, 3)] [(0, 10), (5, 4)]
    (fun p q _ h2 _ => h2) (by decide) (by decide)
  constructor
  · exact h0.1.mpr ⟨0, le_refl 0, by norm_num, rfl, by decide⟩
  · exact h1.2.trans (by decide)

/-- GB_compatible only ever reports success or a domain mismatch. -/
theorem GB_compatible_cases {V : Type} (ctype : GrB_Type) (M : Option (GrB_Matrix V))
    (accum : Option (GrB_BinaryOp V)) (ttype : GrB_Type) :
    GB_compatible ctype M accum ttype = GrB_Info.GrB_SUCCESS ∨
      GB_compatible ctype M accum ttype = GrB_Info.GrB_DOMAIN_MISMATCH := by
  unfold GB_compatible
  dsimp only
  split
  · exact Or.inl rfl
  · exact Or.inr rfl

/-- Claim C5: in the reduce_scalar dispatch, (i) when the matrix type differs
from the monoid z type the switch factory is never consulted (the result does
not depend on it), (ii) in that case the generic typecasting worker is used
unconditionally, (iii) when the types match and the specialized worker
signals GrB_NO_VALUE the dispatcher falls through to the generic no-typecast
worker, exactly as when the factory lacks the combination, and (iv) the
no-value signal is recovered internally: the status returned to the caller is
never GrB_NO_VALUE. -/
theorem GB_reduce_dispatch_spec {V : Type} [DecidableEq V]
    (cast : GB_Type_code → GB_Type_code → V → V) (c : V) (ctype : GrB_Type)
    (accum : Option (GrB_BinaryOp V)) (reduce : GrB_Monoid V) (A : GrB_Matrix V)
    (chunk nthreads_max ntasks : Nat) (fac1 fac2 : Option (GB_red_outcome V)) :
    (A.type ≠ reduce.op.ztype →
      GB_reduce_s cast reduce A fac1 ntasks = GB_reduce_s cast reduce A fac2 ntasks) ∧
    (A.type ≠ reduce.op.ztype → A.Ax ≠ [] →
      GB_reduce_s cast reduce A fac1 ntasks =
        GB_reduce_to_scalar_template reduce.op.f reduce.terminal reduce.identity
          (A.Ax.map (cast reduce.op.ztype.code A.type.code)) ntasks) ∧
    (A.type = reduce.op.ztype →
      GB_reduce_s cast reduce A (some GB_red_outcome.noValue) ntasks =
        GB_reduce_s cast reduce A none ntasks) ∧
    (A.type = reduce.op.ztype → A.Ax ≠ [] →
      GB_reduce_s cast reduce A (some GB_red_outcome.noValue) ntasks =
        GB_reduce_to_scalar_template reduce.op.f reduce.terminal reduce.identity
          A.Ax ntasks) ∧
    (GB_reduce_to_scalar cast c ctype accum reduce A chunk nthreads_max fac1).1 ≠
      GrB_Info.GrB_NO_VALUE := by
  refine ⟨?_, ?_, ?_, ?_, ?_⟩
  · intro hty
    unfold GB_reduce_s
    simp [hty]
  · intro hty hne
    unfold GB_reduce_s
    simp [hty, hne]
  · intro hty
    unfold GB_reduce_s
    simp [hty]
  · intro hty hne
    unfold GB_reduce_s
    simp [hty, hne]
  · unfold GB_reduce_to_scalar
    dsimp only
    split
    · rcases GB_compatible_cases (V := V) ctype none accum reduce.op.ztype with h | h <;>
        simp [h]
    · split
      · simp
      · simp

/-- Witness for C5: with Int values and a FP64 monoid over an INT32 matrix the
factory outcome is ignored; with matching types a no-value outcome falls
through to the generic worker; and a concrete dispatch returns a status other
than GrB_NO_VALUE. -/
theorem GB_reduce_dispatch_spec_witness :
    (GB_reduce_s (fun _ _ v => v) ⟨⟨⟨GB_Type_code.FP64, 0⟩, ⟨GB_Type_code.FP64, 0⟩,
        ⟨GB_Type_code.FP64, 0⟩, fun x y => x + y⟩, 0, none⟩
      ⟨⟨GB_Type_code.INT32, 0⟩, true, false, 2, 2, [(1 : Int), 2, 3]⟩
      (some (GB_red_outcome.success 99)) 2 =
     GB_reduce_s (fun _ _ v => v) ⟨⟨⟨GB_Type_code.FP64, 0⟩, ⟨GB_Type_code.FP64, 0⟩,
        ⟨GB_Type_code.FP64, 0⟩, fun x y => x + y⟩, 0, none⟩
      ⟨⟨GB_Type_code.INT32, 0⟩, true, false, 2, 2, [(1 : Int), 2, 3]⟩ none 2) ∧
    (GB_reduce_s (fun _ _ v => v) ⟨⟨⟨GB_Type_code.INT32, 0⟩, ⟨GB_Type_code.INT32, 0⟩,
        ⟨GB_Type_code.INT32, 0⟩, fun x y => x + y⟩, 0, none⟩
      ⟨⟨GB_Type_code.INT32, 0⟩, true, false, 2, 2, [(1 : Int), 2, 3]⟩
      (some GB_red_outcome.noValue) 2 =
     GB_reduce_to_scalar_template (fun x y => x + y) none (0 : Int) [1, 2, 3] 2) ∧
    (GB_reduce_to_scalar (fun _ _ v => v) (5 : Int) ⟨GB_Type_code.INT32, 0⟩ none
      ⟨⟨⟨GB_Type_code.INT32, 0⟩, ⟨GB_Type_code.INT32, 0⟩,
        ⟨GB_Type_code.INT32, 0⟩, fun x y => x + y⟩, 0, none⟩
      ⟨⟨GB_Type_code.INT32, 0⟩, true, false, 2, 2, [(1 : Int), 2, 3]⟩
      4096 4 (some (GB_red_outcome.success 6))).1 ≠ GrB_Info.GrB_NO_VALUE := by
  refine ⟨?_, ?_, ?_⟩
  · exact (GB_reduce_dispatch_spec (fun _ _ v => v) 0 ⟨GB_Type_code.INT32, 0⟩ none
      ⟨⟨⟨GB_Type_code.FP64, 0⟩, ⟨GB_Type_code.FP64, 0⟩,
        ⟨GB_Type_code.FP64, 0⟩, fun x y => x + y⟩, 0, none⟩
      ⟨⟨GB_Type_code.INT32, 0⟩, true, false, 2, 2, [(1 : Int), 2, 3]⟩ 4096 4 2
      (some (GB_red_outcome.success 99)) none).1 (by decide)
  · exact (GB_reduce_dispatch_spec (fun _ _ v => v) 0 ⟨GB_Type_code.INT32, 0⟩ none
      ⟨⟨⟨GB_Type_code.INT32, 0⟩, ⟨GB_Type_code.INT32, 0⟩,
        ⟨GB_Type_code.INT32, 0⟩, fun x y => x + y⟩, 0, none⟩
      ⟨⟨GB_Type_code.INT32, 0⟩, true, false, 2, 2, [(1 : Int), 2, 3]⟩ 4096 4 2
      (some GB_red_outcome.noValue) none).2.2.2.1 (by decide) (by decide)
  · exact (GB_reduce_dispatch_spec (fun _ _ v => v) 5 ⟨GB_Type_code.INT32, 0⟩ none
      ⟨⟨⟨GB_Type_code.INT32, 0⟩, ⟨GB_Type_code.INT32, 0⟩,
        ⟨GB_Type_code.INT32, 0⟩, fun x y => x + y⟩, 0, none⟩
      ⟨⟨GB_Type_code.INT32, 0⟩, true, false, 2, 2, [(1 : Int), 2, 3]⟩ 4096 4 2
      (some (GB_red_outcome.success 6)) none).2.2.2.2

/-- Claim C6: for GB_reduce_to_scalar and for the element-wise orchestrator
GB_eWise, domain (DomainMismatch) and dimension (DimensionMismatch) errors
are detected at orchestrator entry, before any work, so whenever one of these
statuses is returned the output scalar c, respectively the output matrix C,
is unchanged.  For GB_eWise the phase after the entry checks is the
parameter `rest`, constrained (per the spec: past the entry check,
mismatches are impossible by construction) never to yield these statuses. -/
theorem GB_entry_checks_leave_output_unchanged {V : Type} [DecidableEq V]
    (cast : GB_Type_code → GB_Type_code → V → V) (c : V) (ctype : GrB_Type)
    (accum : Option (GrB_BinaryOp V)) (reduce : GrB_Monoid V) (A : GrB_Matrix V)
    (chunk nthreads_max : Nat) (factory : Option (GB_red_outcome V))
    (rest : GrB_Matrix V → Bool → Option (GrB_Matrix V) → Bool →
      Option (GrB_BinaryOp V) → GrB_BinaryOp V → GrB_Matrix V → Bool →
      GrB_Matrix V → Bool → Bool → GrB_Info × GrB_Matrix V)
    (C : GrB_Matrix V) (C_replace : Bool) (M : Option (GrB_Matrix V))
    (Mask_comp : Bool) (accum2 : Option (GrB_BinaryOp V)) (op : GrB_BinaryOp V)
    (A2 : GrB_Matrix V) (A_transpose : Bool) (B : GrB_Matrix V) (B_transpose : Bool)
    (eWiseAdd : Bool)
    (hrest : ∀ a1 a2 a3 a4 a5 a6 a7 a8 a9 a10 a11,
      (rest a1 a2 a3 a4 a5 a6 a7 a8 a9 a10 a11).1 ≠ GrB_Info.GrB_DOMAIN_MISMATCH ∧
      (rest a1 a2 a3 a4 a5 a6 a7 a8 a9 a10 a11).1 ≠ GrB_Info.GrB_DIMENSION_MISMATCH) :
    (((GB_reduce_to_scalar cast c ctype accum reduce A chunk nthreads_max
          factory).1 = GrB_Info.GrB_DOMAIN_MISMATCH ∨
      (GB_reduce_to_scalar cast c ctype accum reduce A chunk nthreads_max
          factory).1 = GrB_Info.GrB_DIMENSION_MISMATCH) →
      (GB_reduce_to_scalar cast c ctype accum reduce A chunk nthreads_max
          factory).2 = c) ∧
    (((GB_eWise rest C C_replace M Mask_comp accum2 op A2 A_transpose B
          B_transpose eWiseAdd).1 = GrB_Info.GrB_DOMAIN_MISMATCH ∨
      (GB_eWise rest C C_replace M Mask_comp accum2 op A2 A_transpose B
          B_transpose eWiseAdd).1 = GrB_Info.GrB_DIMENSION_MISMATCH) →
      (GB_eWise rest C C_replace M Mask_comp accum2 op A2 A_transpose B
          B_transpose eWiseAdd).2 = C) := by
  constructor
  · unfold GB_reduce_to_scalar
    dsimp only
    split
    · intro _
      rfl
    · split
      · intro _
        rfl
      · intro herr
        simp at herr
  · unfold GB_eWise
    dsimp only
    split
    · intro _
      rfl
    · split
      · intro _
        rfl
      · split
        · intro _
          rfl
        · split
          · intro _
            rfl
          · split
            · intro _
              rfl
            · intro herr
              rcases herr with h | h
              · exact absurd h (hrest _ _ _ _ _ _ _ _ _ _ _).1
              · exact absurd h (hrest _ _ _ _ _ _ _ _ _ _ _).2

/-- Witness for C6: a reduce on a user-defined matrix type with an INT32
monoid fails with DomainMismatch and leaves c = 5 unchanged; an eWise call on
a 2-by-2 output with 1-by-1 inputs fails with DimensionMismatch and leaves C
unchanged. -/
theorem GB_entry_checks_leave_output_unchanged_witness :
    (GB_reduce_to_scalar (fun _ _ v => v) (5 : Int) ⟨GB_Type_code.INT32, 0⟩ none
      ⟨⟨⟨GB_Type_code.INT32, 0⟩, ⟨GB_Type_code.INT32, 0⟩,
        ⟨GB_Type_code.INT32, 0⟩, fun x y => x + y⟩, 0, none⟩
      ⟨⟨GB_Type_code.UDT, 7⟩, true, false, 2, 2, [(1 : Int)]⟩
      4096 4 none).2 = 5 ∧
    (GB_eWise (fun C1 _ _ _ _ _ _ _ _ _ _ => (GrB_Info.GrB_SUCCESS, C1))
      ⟨⟨GB_Type_code.INT32, 0⟩, true, false, 2, 2, [(0 : Int)]⟩ false none false
      none ⟨⟨GB_Type_code.INT32, 0⟩, ⟨GB_Type_code.INT32, 0⟩,
        ⟨GB_Type_code.INT32, 0⟩, fun x y => x + y⟩
      ⟨⟨GB_Type_code.INT32, 0⟩, true, false, 1, 1, [(1 : Int)]⟩ false
      ⟨⟨GB_Type_code.INT32, 0⟩, true, false, 1, 1, [(2 : Int)]⟩ false true).2 =
      ⟨⟨GB_Type_code.INT32, 0⟩, true, false, 2, 2, [(0 : Int)]⟩ := by
  have h := GB_entry_checks_leave_output_unchanged (V := Int) (fun _ _ v => v) 5
    ⟨GB_Type_code.INT32, 0⟩ none
    ⟨⟨⟨GB_Type_code.INT32, 0⟩, ⟨GB_Type_code.INT32, 0⟩,
      ⟨GB_Type_code.INT32, 0⟩, fun x y => x + y⟩, 0, none⟩
    ⟨⟨GB_Type_code.UDT, 7⟩, true, false, 2, 2, [(1 : Int)]⟩ 4096 4 none
    (fun C1 _ _ _ _ _ _ _ _ _ _ => (GrB_Info.GrB_SUCCESS, C1))
    ⟨⟨GB_Type_code.INT32, 0⟩, true, false, 2, 2, [(0 : Int)]⟩ false none false
    none ⟨⟨GB_Type_code.INT32, 0⟩, ⟨GB_Type_code.INT32, 0⟩,
      ⟨GB_Type_code.INT32, 0⟩, fun x y => x + y⟩
    ⟨⟨GB_Type_code.INT32, 0⟩, true, false, 1, 1, [(1 : Int)]⟩ false
    ⟨⟨GB_Type_code.INT32, 0⟩, true, false, 1, 1, [(2 : Int)]⟩ false true
    (by intro a1 a2 a3 a4 a5 a6 a7 a8 a9 a10 a11; exact ⟨by simp, by simp⟩)
  exact ⟨h.1 (Or.inl (by decide)), h.2 (Or.inr (by decide))⟩

/-- Claim C9: under the checks shared by both paths (accum/mask compatibility
and operator input compatibility), the set-union path (eWiseAdd) additionally
requires C's type to be typecast-compatible with both A's and B's types,
returning DomainMismatch with C unchanged otherwise, because entries present
in only one input are copied into C; the set-intersection path (eWiseMult)
imposes no such requirement: it proceeds past the domain checks to the
dimension check and then to the remaining phase, whatever
GB_Type_compatible C.type A.type and GB_Type_compatible C.type B.type are. -/
theorem GB_eWise_add_union_type_requirement {V : Type}
    (rest : GrB_Matrix V → Bool → Option (GrB_Matrix V) → Bool →
      Option (GrB_BinaryOp V) → GrB_BinaryOp V → GrB_Matrix V → Bool →
      GrB_Matrix V → Bool → Bool → GrB_Info × GrB_Matrix V)
    (C : GrB_Matrix V) (C_replace : Bool) (M : Option (GrB_Matrix V))
    (Mask_comp : Bool) (accum : Option (GrB_BinaryOp V)) (op : GrB_BinaryOp V)
    (A : GrB_Matrix V) (A_transpose : Bool) (B : GrB_Matrix V) (B_transpose : Bool)
    (h1 : GB_compatible C.type M accum op.ztype = GrB_Info.GrB_SUCCESS)
    (h2 : GB_BinaryOp_compatible op A.type B.type = GrB_Info.GrB_SUCCESS) :
    ((GB_Type_compatible C.type A.type = false ∨
        GB_Type_compatible C.type B.type = false) →
      GB_eWise rest C C_replace M Mask_comp accum op A A_transpose B B_transpose
        true = (GrB_Info.GrB_DOMAIN_MISMATCH, C)) ∧
    (GB_eWise rest C C_replace M Mask_comp accum op A A_transpose B B_transpose
        false = (GrB_Info.GrB_DIMENSION_MISMATCH, C) ∨
     GB_eWise rest C C_replace M Mask_comp accum op A A_transpose B B_transpose
        false = rest C C_replace M Mask_comp accum op A A_transpose B
          B_transpose false) := by
  constructor
  · intro hCab
    unfold GB_eWise
    rcases hCab with h | h
    · simp [h1, h2, h]
    · rcases hab : GB_Type_compatible C.type A.type with hf | ht
      · simp [h1, h2, hab]
      · simp [h1, h2, hab, h]
  · unfold GB_eWise
    dsimp only
    simp only [h1, h2, Bool.false_and, ne_eq, not_true_eq_false, if_false,
      Bool.false_eq_true, ite_false]
    by_cases hd : GB_eWise_dim_mismatch C A B A_transpose B_transpose = true
    · rw [if_pos hd]
      exact Or.inl rfl
    · rw [if_neg hd]
      exact Or.inr rfl

/-- Witness for C9: C has a user-defined type, A is INT32, B shares C's
user-defined type, and the operator is chosen so that every shared check
passes while C and A are incompatible; the eWiseAdd path then fails with
DomainMismatch and C unchanged, while the eWiseMult path with the same
arguments reaches the post-check phase. -/
theorem GB_eWise_add_union_type_requirement_witness :
    (GB_eWise (fun C1 _ _ _ _ _ _ _ _ _ _ => (GrB_Info.GrB_SUCCESS, C1))
      ⟨⟨GB_Type_code.UDT, 1⟩, true, false, 1, 1, [(0 : Int)]⟩ false none false
      none ⟨⟨GB_Type_code.INT32, 0⟩, ⟨GB_Type_code.UDT, 1⟩,
        ⟨GB_Type_code.UDT, 1⟩, fun x y => x + y⟩
      ⟨⟨GB_Type_code.INT32, 0⟩, true, false, 1, 1, [(1 : Int)]⟩ false
      ⟨⟨GB_Type_code.UDT, 1⟩, true, false, 1, 1, [(2 : Int)]⟩ false true =
      (GrB_Info.GrB_DOMAIN_MISMATCH,
        ⟨⟨GB_Type_code.UDT, 1⟩, true, false, 1, 1, [(0 : Int)]⟩)) ∧
    (GB_eWise (fun C1 _ _ _ _ _ _ _ _ _ _ => (GrB_Info.GrB_SUCCESS, C1))
      ⟨⟨GB_Type_code.UDT, 1⟩, true, false, 1, 1, [(0 : Int)]⟩ false none false
      none ⟨⟨GB_Type_code.INT32, 0⟩, ⟨GB_Type_code.UDT, 1⟩,
        ⟨GB_Type_code.UDT, 1⟩, fun x y => x + y⟩
      ⟨⟨GB_Type_code.INT32, 0⟩, true, false, 1, 1, [(1 : Int)]⟩ false
      ⟨⟨GB_Type_code.UDT, 1⟩, true, false, 1, 1, [(2 : Int)]⟩ false false =
      (GrB_Info.GrB_SUCCESS,
        ⟨⟨GB_Type_code.UDT, 1⟩, true, false, 1, 1, [(0 : Int)]⟩)) := by
  have h := GB_eWise_add_union_type_requirement (V := Int)
    (fun C1 _ _ _ _ _ _ _ _ _ _ => (GrB_Info.GrB_SUCCESS, C1))
    ⟨⟨GB_Type_code.UDT, 1⟩, true, false, 1, 1, [(0 : Int)]⟩ false none false
    none ⟨⟨GB_Type_code.INT32, 0⟩, ⟨GB_Type_code.UDT, 1⟩,
      ⟨GB_Type_code.UDT, 1⟩, fun x y => x + y⟩
    ⟨⟨GB_Type_code.INT32, 0⟩, true, false, 1, 1, [(1 : Int)]⟩ false
    ⟨⟨GB_Type_code.UDT, 1⟩, true, false, 1, 1, [(2 : Int)]⟩ false
    (by decide) (by decide)
  refine ⟨h.1 (Or.inl (by decide)), ?_⟩
  rcases h.2 with h2 | h2
  · exact absurd h2 (by decide)
  · exact h2

end GraphBLAS
